import Mathlib

/-!
Verification development for the spaceship-alpha entity simulation core.

This file shallowly embeds the entity/collision subsystem of the repository
(`src/entity/mod.rs`, `src/entity/ship.rs`, `src/entity/physics.rs`,
`src/entity/objects.rs`, `src/item.rs`, `src/block.rs`, `src/floor.rs`) into
Lean and proves the specification's claims about it.

Modelling conventions:
* `f32` scalar state is modelled as `ℚ` (all constants appearing in the code
  are exactly representable; no rounding is relevant to the claims proved
  here).
* `u32`/`u16` integers are modelled as `ℕ`, with wrap-around spelled out
  (`% 2 ^ 32`) where the source's release-mode arithmetic could wrap.
* specs `Entity` values are generational indices: a pair of an id and a
  generation.
* Fallible operations (`unwrap`, `expect`, `unimplemented!`) are modelled with
  `Option`-shaped outcomes: a `panic` result carries the state at the point of
  the abort so that frame conditions can still be stated about it.
* The ncollide narrow-phase geometry (ray/shape time of impact) is an external
  library; embeddings that need it take the time-of-impact function as an
  explicit argument, and an exact rational instance for axis-aligned cuboids
  is provided for concrete scenes.
-/

namespace SpaceAlpha

/-- Rational 3-vector standing in for `cgmath::Vector3<f32>`. -/
structure Vec3 where
  x : ℚ
  y : ℚ
  z : ℚ
deriving DecidableEq, Repr

/-- Componentwise addition, as used by the physics integrator. -/
def Vec3.add (a b : Vec3) : Vec3 := ⟨a.x + b.x, a.y + b.y, a.z + b.z⟩

/-- Scalar multiplication. -/
def Vec3.smul (q : ℚ) (a : Vec3) : Vec3 := ⟨q * a.x, q * a.y, q * a.z⟩

/-- Squared Euclidean norm (used to compare distances without square roots). -/
def Vec3.normSq (a : Vec3) : ℚ := a.x * a.x + a.y * a.y + a.z * a.z

/-- Componentwise subtraction. -/
def Vec3.sub (a b : Vec3) : Vec3 := ⟨a.x - b.x, a.y - b.y, a.z - b.z⟩

def Vec3.zero : Vec3 := ⟨0, 0, 0⟩

/-- Quaternion standing in for `cgmath::Quaternion<f32>` (scalar part `s`). -/
structure Quat where
  s : ℚ
  vx : ℚ
  vy : ℚ
  vz : ℚ
deriving DecidableEq, Repr

/-- `Quaternion::from_angle_z(Rad(0.0))`: the identity rotation, the only
rotation value the claims proved here ever need concretely. -/
def Quat.identity : Quat := ⟨1, 0, 0, 0⟩

/-- specs `Entity`: a generational index (slot id plus generation). -/
structure Entity where
  id : ℕ
  gen : ℕ
deriving DecidableEq, Repr

/-- `src/item.rs`: the two game items. -/
inductive GameItem where
  | iron
  | copper
deriving DecidableEq, Repr

/-- `src/item.rs`: `ItemStack { item, amount: u32 }`. -/
structure ItemStack where
  item : GameItem
  amount : ℕ
deriving DecidableEq, Repr

/-- `src/item.rs`: the `Inventory` map. `Inventory::new` initialises every
`GameItem` variant to `0`, so the map is total over `GameItem` and is modelled
as a function. -/
abbrev Inventory : Type := GameItem → ℕ

/-- `Inventory::amount` (total here because every variant is present). -/
def Inventory.amount (inv : Inventory) (item : GameItem) : ℕ := inv item

/-- `Inventory::has_enough_items`. -/
def Inventory.hasEnoughItems (inv : Inventory) (stack : ItemStack) : Bool :=
  decide (stack.amount ≤ inv.amount stack.item)

/-- `Inventory::add`: `*amount += delta` on a `u32`, wrapping modulo `2^32`. -/
def Inventory.add (inv : Inventory) (item : GameItem) (delta : ℕ) : Inventory :=
  fun i => if i = item then (inv i + delta) % 2 ^ 32 else inv i

/-- `Inventory::remove`: `*amount -= delta` on a `u32`; release-mode wrapping
subtraction (the claims only exercise it when `delta ≤` the stored amount). -/
def Inventory.remove (inv : Inventory) (item : GameItem) (delta : ℕ) : Inventory :=
  fun i =>
    if i = item then
      (if delta % 2 ^ 32 ≤ inv i then inv i - delta % 2 ^ 32
       else inv i + 2 ^ 32 - delta % 2 ^ 32)
    else inv i

/-- `src/entity/objects.rs`: `Health(pub u32)`. -/
abbrev Health : Type := ℕ

/-- `Health::damage`: `self.0 -= amount.min(self.0)`. The subtrahend is
clamped to the current amount, so the `u32` subtraction never underflows and
is modelled exactly on `ℕ`. -/
def Health.damage (h : Health) (amount : ℕ) : Health := h - min amount h

/-- `Health::health`. -/
def Health.health (h : Health) : ℕ := h

/-- `src/entity/mod.rs`: the `ToBeRemoved` removal queue — an insertion-order
list of entities plus a `BitSet` of their slot ids. -/
structure ToBeRemoved where
  vec : List Entity
  bitset : Finset ℕ
deriving DecidableEq

/-- The initial (empty) queue, as by `ToBeRemoved::default()`. -/
def ToBeRemoved.empty : ToBeRemoved := ⟨[], ∅⟩

/-- `ToBeRemoved::add`: push the entity and set its id bit unless the entity
is already listed. -/
def ToBeRemoved.add (q : ToBeRemoved) (e : Entity) : ToBeRemoved :=
  if e ∈ q.vec then q else ⟨q.vec ++ [e], insert e.id q.bitset⟩

/-- `ToBeRemoved::clear`. -/
def ToBeRemoved.clear (_q : ToBeRemoved) : ToBeRemoved := ⟨[], ∅⟩

/-- `ToBeRemoved::as_slice`. -/
def ToBeRemoved.asSlice (q : ToBeRemoved) : List Entity := q.vec

/-- `src/entity/mod.rs`: `Transform { position, rotation, scale }`. -/
structure Transform where
  position : Vec3
  rotation : Quat
  scale : Vec3
deriving DecidableEq, Repr

/-- `Transform::from_position`. -/
def Transform.fromPosition (x y z : ℚ) : Transform :=
  ⟨⟨x, y, z⟩, Quat.identity, ⟨1, 1, 1⟩⟩

abbrev MeshId : Type := ℕ

abbrev ModelId : Type := ℕ

abbrev BlockId : Type := ℕ

/-- `src/entity/physics.rs`: `ColliderShape` — `Cuboid` holds the FULL size of
the box (not half-extents), `Sphere` a radius. -/
inductive ColliderShape where
  | cuboid (size : Vec3)
  | sphere (radius : ℚ)
deriving DecidableEq, Repr

/-- `src/entity/physics.rs`: `Hitbox { shape, offset }`. -/
structure Hitbox where
  shape : ColliderShape
  offset : Vec3
deriving DecidableEq, Repr

/-- `Hitbox::with_shape` (zero offset). -/
def Hitbox.withShape (shape : ColliderShape) : Hitbox := ⟨shape, Vec3.zero⟩

/-- The ncollide shape handle built by `Hitbox::as_shape_handle`: cuboids are
converted to half-extents, spheres to balls. -/
inductive ShapeHandle where
  | cuboidHalf (halfExtents : Vec3)
  | ball (radius : ℚ)
deriving DecidableEq, Repr

/-- `Hitbox::as_shape_handle`: halves the cuboid's full size. -/
def Hitbox.asShapeHandle (hb : Hitbox) : ShapeHandle :=
  match hb.shape with
  | .cuboid size => .cuboidHalf ⟨size.x / 2, size.y / 2, size.z / 2⟩
  | .sphere radius => .ball radius

/-- An ncollide `Isometry3`: translation plus rotation, as produced by
`to_nalgebra_pos`. -/
structure Iso where
  translation : Vec3
  rotation : Quat
deriving DecidableEq, Repr

/-- `to_nalgebra_pos`: translate by `transform.position + offset`, keep the
transform's rotation. -/
def toNalgebraPos (t : Transform) (offset : Vec3) : Iso :=
  ⟨t.position.add offset, t.rotation⟩

/-- The data of a model matrix. `Transform::as_matrix` composes a translation,
a rotation and a scale matrix; the claims never inspect matrix entries, so the
matrix is modelled by the defining triple. -/
structure Mat where
  translation : Vec3
  rotation : Quat
  scale : Vec3
deriving DecidableEq, Repr

/-- `Transform::as_matrix`. -/
def Transform.asMatrix (t : Transform) : Mat := ⟨t.position, t.rotation, t.scale⟩

/-- `src/entity/physics.rs`: `HitboxMeshes` (debug meshes for hitbox
visualisation). -/
structure HitboxMeshes where
  unitCube : MeshId
  unitSphere : MeshId
deriving DecidableEq, Repr

/-- `Hitbox::to_hitbox_mesh`. -/
def Hitbox.toHitboxMesh (hb : Hitbox) (meshes : HitboxMeshes) : MeshId :=
  match hb.shape with
  | .cuboid _ => meshes.unitCube
  | .sphere _ => meshes.unitSphere

/-- `Hitbox::to_hitbox_model`: offset the position, replace the scale with the
shape's extent, then multiply componentwise by the transform's scale (with the
source's y/z swap), and take the matrix. -/
def Hitbox.toHitboxModel (hb : Hitbox) (t : Transform) : Mat :=
  let pos := t.position.add hb.offset
  let scale : Vec3 :=
    match hb.shape with
    | .cuboid size => size
    | .sphere radius => ⟨radius, radius, radius⟩
  let scale' : Vec3 :=
    ⟨scale.x * t.scale.x, scale.y * t.scale.z, scale.z * t.scale.y⟩
  Transform.asMatrix ⟨pos, t.rotation, scale'⟩

/-- `src/entity/physics.rs`: the `Collider` component. `raycast_id` and
`model_id` are the persistent raycast-world registration handles. -/
structure Collider where
  hitbox : Hitbox
  group : ℕ
  whitelist : List ℕ
  raycastId : Option ℕ
  modelId : Option ℕ
deriving DecidableEq, Repr

/-- `Collider::RAYCAST`: internal-only sentinel group. -/
def Collider.RAYCAST : ℕ := 0

def Collider.ASTEROID : ℕ := 1

def Collider.SHIP : ℕ := 2

def Collider.MISSLE : ℕ := 3

/-- `Collider::new`: both registration handles start out `None`. -/
def Collider.new (hitbox : Hitbox) (group : ℕ) (whitelist : List ℕ) : Collider :=
  ⟨hitbox, group, whitelist, none, none⟩

/-- ncollide `CollisionGroups`: membership / whitelist / blacklist bitmasks
over the 30 group ids. -/
structure CollisionGroups where
  membership : List ℕ
  whitelist : List ℕ
  blacklist : List ℕ
deriving DecidableEq, Repr

/-- All ncollide group ids (`CollisionGroups::new` starts with full
membership and whitelist). -/
def CollisionGroups.allGroups : List ℕ := List.range 30

/-- `CollisionGroups::new()`. -/
def CollisionGroups.new : CollisionGroups :=
  ⟨CollisionGroups.allGroups, CollisionGroups.allGroups, []⟩

/-- `with_membership` (replaces the membership set). -/
def CollisionGroups.withMembership (g : CollisionGroups) (m : List ℕ) : CollisionGroups :=
  { g with membership := m }

/-- `with_whitelist` / `set_whitelist` (replaces the whitelist). -/
def CollisionGroups.withWhitelist (g : CollisionGroups) (w : List ℕ) : CollisionGroups :=
  { g with whitelist := w }

/-- ncollide `can_interact_with_groups`: no blacklist overlap and mutual
membership/whitelist overlap. -/
def CollisionGroups.canInteract (a b : CollisionGroups) : Bool :=
  a.membership.all (fun g => g ∉ b.blacklist) &&
  b.membership.all (fun g => g ∉ a.blacklist) &&
  a.membership.any (fun g => g ∈ b.whitelist) &&
  b.membership.any (fun g => g ∈ a.whitelist)

/-- Pointwise update of a finite map represented as a function. -/
def upd {α β : Type} [DecidableEq α] (f : α → Option β) (a : α) (b : Option β) :
    α → Option β :=
  fun x => if x = a then b else f x

/-- The mesh-manager surface consumed by this core: a store of model
instances, keyed by a fresh `ModelId`, each recording its mesh and current
matrix. -/
structure MeshManager where
  nextModel : ℕ
  models : ℕ → Option (MeshId × Mat)

/-- `MeshManager::new_model`: allocate a fresh model id for `mesh_id` with the
given matrix. -/
def MeshManager.newModel (m : MeshManager) (mesh : MeshId) (mat : Mat) :
    ModelId × MeshManager :=
  (m.nextModel, ⟨m.nextModel + 1, upd m.models m.nextModel (some (mesh, mat))⟩)

/-- `MeshManager::update_model`: replace the stored matrix. -/
def MeshManager.updateModel (m : MeshManager) (mesh : MeshId) (model : ModelId)
    (mat : Mat) : MeshManager :=
  ⟨m.nextModel, upd m.models model (some (mesh, mat))⟩

/-- `MeshManager::remove_model`. -/
def MeshManager.removeModel (m : MeshManager) (_mesh : MeshId) (model : ModelId) :
    MeshManager :=
  ⟨m.nextModel, upd m.models model none⟩

/-- Grid coordinate (`cgmath::Point2<i16>`; the claims stay far from the i16
bounds, so coordinates are modelled as integers). -/
abbrev Point : Type := ℤ × ℤ

/-- `src/entity/ship.rs`: one `Tile` of a ship's sparse grid. -/
structure Tile where
  block : Option Entity
  gadget : Option Entity
  floor : Option Entity
deriving DecidableEq, Repr

/-- The all-empty tile (`create_ship` fills the initial grid with it). -/
def Tile.emptyTile : Tile := ⟨none, none, none⟩

/-- `src/entity/ship.rs`: the `BlockEntity` back-reference component. -/
structure BlockEntity where
  ship : Entity
  blockId : BlockId
  root : Point
deriving DecidableEq, Repr

/-- `src/entity/ship.rs`: the `GadgetEntity` back-reference component. -/
structure GadgetEntity where
  ship : Entity
  blockId : BlockId
deriving DecidableEq, Repr

/-- `src/entity/ship.rs`: the `Ship` component — heat counter plus the sparse
tile map. -/
structure Ship where
  heat : ℚ
  tiles : Point → Option Tile

/-- `src/floor.rs`: `Floor(MeshId)`. -/
structure Floor where
  meshId : MeshId
deriving DecidableEq, Repr

/-- `Into<MeshId> for Floor`. -/
def Floor.intoMeshId (f : Floor) : MeshId := f.meshId

/-- `src/block.rs`: one static `Block` catalog entry. The `type_name` string
plays no role in any claim and is omitted; `setup` is the optional
attach-extra-components hook, identified here by an opaque tag that is
recorded on the built entity when applied.

The `cost` field is `Modelled from the spec:` the `Block` struct in the
provided `src/block.rs` snapshot lacks the `cost` list that
`execute_build_actions` in `src/entity/ship.rs` reads; the spec gives
`build_cost: [ItemStack]`, which is modelled here verbatim. -/
structure Block where
  id : BlockId
  meshId : MeshId
  size : ℕ × ℕ
  height : ℚ
  hitbox : Hitbox
  setup : Option ℕ
  isGadget : Bool
  cost : List ItemStack
deriving DecidableEq, Repr

/-- `src/block.rs`: the `Blocks` catalog (a vector indexed by `BlockId`). -/
structure Blocks where
  blocks : List Block
deriving DecidableEq, Repr

/-- `Blocks::get_block`, which panics on an invalid id: modelled as the
optional vector lookup, a `none` standing for the panic. -/
def Blocks.getBlock (bs : Blocks) (id : BlockId) : Option Block :=
  bs.blocks.get? id

/-- `src/entity/ship.rs`: the `BuildAction` request variants. -/
inductive BuildAction where
  | buildBlock (pos : Point) (blockId : BlockId)
  | removeBlock (pos : Point)
  | buildFloor (pos : Point) (floor : Floor)
  | removeFloor (pos : Point)
deriving DecidableEq, Repr

/-- A lazily created entity: the components recorded against the reserved
entity handle by the `LazyUpdate` builder, to be materialised at the next
maintenance point. -/
structure PendingEntity where
  entity : Entity
  modelMesh : MeshId
  transform : Transform
  blockEntity : Option BlockEntity
  gadgetEntity : Option GadgetEntity
  collider : Option Collider
  setupApplied : Option ℕ
deriving DecidableEq, Repr

/-- The state read and written by `execute_build_actions` once the target
ship's component has been fetched: the ship itself, the shared `Inventory`
resource, the list of lazily created entities, and the entity allocator. -/
structure BuildState where
  ship : Ship
  inventory : Inventory
  pending : List PendingEntity
  nextEntity : ℕ

/-- Reserve a fresh entity handle (as `lazy_update.create_entity(&entities)`
does) and record its components. -/
def BuildState.alloc (s : BuildState) (p : Entity → PendingEntity) :
    Entity × BuildState :=
  let e : Entity := ⟨s.nextEntity, 0⟩
  (e, { s with pending := s.pending ++ [p e], nextEntity := s.nextEntity + 1 })

/-- Outcome of one iteration of the `execute_build_actions` loop: proceed to
the next action, `break` out of the loop, or panic. -/
inductive StepRes where
  | ok (s : BuildState)
  | brk (s : BuildState)
  | panic (s : BuildState)

/-- The state carried by a step result, whichever way the step ended. -/
def StepRes.state : StepRes → BuildState
  | .ok s => s
  | .brk s => s
  | .panic s => s

/-- One iteration of the `execute_build_actions` match, embedded from
`src/entity/ship.rs` lines 67-178. `blockEntities` is the read-only
`BlockEntity` component storage. -/
def execStep (blocks : Blocks) (blockEntities : Entity → Option BlockEntity)
    (shipEntity : Entity) (ignorePrice : Bool) (s : BuildState)
    (action : BuildAction) : StepRes :=
  match action with
  | .buildBlock pos blockId =>
    match blocks.getBlock blockId with
    | none => .panic s
    | some block =>
      if block.isGadget then
        -- gadget branch (guarded arm, ship.rs:69)
        if 1 < block.size.1 ∨ 1 < block.size.2 then .panic s
        else
          match ((s.ship.tiles pos).bind Tile.block).bind blockEntities with
          | none => .ok s
          | some baseBE =>
            match blocks.getBlock baseBE.blockId with
            | none => .panic s
            | some base =>
              if !ignorePrice ∧
                  0 < (block.cost.filter
                    (fun c => !s.inventory.hasEnoughItems c)).length then
                .brk s
              else
                let deducted : Inventory :=
                  block.cost.foldl (fun inv c => inv.remove c.item c.amount)
                    s.inventory
                let s := if ignorePrice then s else { s with inventory := deducted }
                let (e, s) := s.alloc (fun e =>
                  { entity := e
                    modelMesh := block.meshId
                    transform :=
                      Transform.fromPosition (pos.1 : ℚ) (pos.2 : ℚ) base.height
                    blockEntity := none
                    gadgetEntity := some ⟨shipEntity, blockId⟩
                    collider := some (Collider.new block.hitbox Collider.SHIP
                      [Collider.ASTEROID])
                    setupApplied := block.setup })
                match s.ship.tiles pos with
                | none => .panic s
                | some t =>
                  let t' : Tile := { t with gadget := some e }
                  let ship' : Ship := { s.ship with tiles := upd s.ship.tiles pos (some t') }
                  .ok { s with ship := ship' }
      else
        -- non-gadget block branch (ship.rs:133)
        if 1 < block.size.1 ∨ 1 < block.size.2 then .panic s
        else
          let (e, s) := s.alloc (fun e =>
            { entity := e
              modelMesh := block.meshId
              transform := Transform.fromPosition (pos.1 : ℚ) (pos.2 : ℚ) 0
              blockEntity := some ⟨shipEntity, blockId, pos⟩
              gadgetEntity := none
              collider := some (Collider.new block.hitbox Collider.SHIP
                [Collider.ASTEROID])
              setupApplied := block.setup })
          match s.ship.tiles pos with
          | none => .panic s
          | some t =>
            let t' : Tile := { t with block := some e }
            let ship' : Ship := { s.ship with tiles := upd s.ship.tiles pos (some t') }
            .ok { s with ship := ship' }
  | .buildFloor pos floor =>
    let (e, s) := s.alloc (fun e =>
      { entity := e
        modelMesh := floor.intoMeshId
        transform := Transform.fromPosition (pos.1 : ℚ) (pos.2 : ℚ) 0
        blockEntity := none
        gadgetEntity := none
        collider := none
        setupApplied := none })
    match s.ship.tiles pos with
    | none => .panic s
    | some t =>
      -- NOTE: faithful to ship.rs:172-175, which assigns the tile's BLOCK
      -- slot (not the floor slot) for a BuildFloor action.
      let t' : Tile := { t with block := some e }
      let ship' : Ship := { s.ship with tiles := upd s.ship.tiles pos (some t') }
      .ok { s with ship := ship' }
  | _ => .panic s

/-- Result of `execute_build_actions`: normal return or panic (the panicked
state records the world at the abort point, where nothing further runs). -/
inductive ExecOut where
  | ok (s : BuildState)
  | panicked (s : BuildState)

def ExecOut.state : ExecOut → BuildState
  | .ok s => s
  | .panicked s => s

/-- The `execute_build_actions` loop over the ordered action list
(`src/entity/ship.rs:67-179`), starting from the state obtained after the
ship's component has been fetched. A `brk` step ends the loop but returns
normally; a panic aborts. -/
def execBuildActions (blocks : Blocks) (blockEntities : Entity → Option BlockEntity)
    (shipEntity : Entity) (ignorePrice : Bool) (s : BuildState) :
    List BuildAction → ExecOut
  | [] => .ok s
  | a :: rest =>
    match execStep blocks blockEntities shipEntity ignorePrice s a with
    | .ok s' => execBuildActions blocks blockEntities shipEntity ignorePrice s' rest
    | .brk s' => .ok s'
    | .panic s' => .panicked s'

/-! ### Physics contact processing (`PhysicsSystem::run`, physics.rs:84-116) -/

/-- An ncollide contact event, with the collision-object handles already
resolved to the entities they were registered with (`world.collision_object
(h).data()`). -/
inductive ContactEvent where
  | started (e1 e2 : Entity)
  | stopped (e1 e2 : Entity)
deriving DecidableEq, Repr

/-- The local `has_component` helper of `PhysicsSystem::run`. -/
def hasComponent {α : Type} (e1 e2 : Entity) (store : Entity → Option α) : Bool :=
  (store e1).isSome || (store e2).isSome

/-- The state written by the contact-processing loop: the removal queue and
the `Ship` component storage. -/
structure PhysState where
  tbr : ToBeRemoved
  ships : Entity → Option Ship

/-- Processing of one contact event (physics.rs:86-113). `none` models the
panics of the two `unwrap`s (a struck block with no `BlockEntity` cannot
occur inside the guarded branch; a `BlockEntity` whose `ship` lacks a `Ship`
component can). -/
def processContactEvent (blocks : Entity → Option BlockEntity)
    (asteroids : Entity → Option GameItem) (missles : Entity → Option Entity)
    (s : PhysState) : ContactEvent → Option PhysState
  | .stopped _ _ => some s
  | .started e1 e2 =>
    let afterBlock : Option PhysState :=
      if hasComponent e1 e2 blocks then
        let tbr :=
          if (asteroids e1).isSome then s.tbr.add e1
          else if (asteroids e2).isSome then s.tbr.add e2
          else s.tbr
        let blockEntity := if (blocks e1).isSome then e1 else e2
        match blocks blockEntity with
        | none => none
        | some be =>
          match s.ships be.ship with
          | none => none
          | some ship =>
            let ship' : Ship := { ship with heat := ship.heat + 20 }
            some ⟨tbr, upd s.ships be.ship (some ship')⟩
      else some s
    match afterBlock with
    | none => none
    | some s1 =>
      if hasComponent e1 e2 missles && hasComponent e1 e2 asteroids then
        some { s1 with tbr := (s1.tbr.add e1).add e2 }
      else some s1

/-- The contact-processing loop over this tick's contact events. -/
def processContacts (blocks : Entity → Option BlockEntity)
    (asteroids : Entity → Option GameItem) (missles : Entity → Option Entity)
    (s : PhysState) : List ContactEvent → Option PhysState
  | [] => some s
  | ev :: rest =>
    match processContactEvent blocks asteroids missles s ev with
    | none => none
    | some s' => processContacts blocks asteroids missles s' rest

/-! ### Mining missile homing (`MiningMissleSystem::run`, objects.rs:176-211) -/

/-- `MiningMissle::SPEED = 6.5`. -/
def MiningMissle.SPEED : ℚ := 13 / 2

/-- The state written by `MiningMissleSystem`: the removal queue and the
`RigidBody` (velocity) storage. -/
structure MissleState where
  tbr : ToBeRemoved
  rigidBodies : Entity → Option Vec3

/-- Processing of one missile (one iteration of the `(&entities, &missles)`
join). `nrm` is `cgmath`'s `normalize` on 3-vectors, taken as a parameter
because exact normalisation leaves ℚ; every claim proved about this system is
independent of it. `none` models the panic of an `unwrap` on a missing
component. The target's components are looked up only after the
`entities.is_alive(missle.target)` check has succeeded. -/
def missleStep (nrm : Vec3 → Vec3) (alive : Entity → Bool)
    (transforms : Entity → Option Transform) (s : MissleState)
    (entity target : Entity) : Option MissleState :=
  if !alive target then some { s with tbr := s.tbr.add entity }
  else
    match transforms entity with
    | none => none
    | some mt =>
      match transforms target with
      | none => none
      | some tt =>
        let mp := mt.position
        let tp := tt.position
        if tp.z ≤ mp.z then
          match s.rigidBodies entity with
          | none => none
          | some _ =>
            let v := Vec3.smul MiningMissle.SPEED (nrm ⟨tp.x - mp.x, tp.y - mp.y, 0⟩)
            some { s with rigidBodies := upd s.rigidBodies entity (some v) }
        else if tp.z - 1 ≤ mp.z then
          match s.rigidBodies entity with
          | none => none
          | some _ =>
            let zFactor := 1 - (tp.z - mp.z) ^ 2
            let v := Vec3.smul (zFactor * MiningMissle.SPEED)
              (nrm ⟨tp.x - mp.x, tp.y - mp.y, 0⟩)
            let v' : Vec3 := { v with z := MiningMissle.SPEED * max (1 - zFactor) (2 / 5) }
            some { s with rigidBodies := upd s.rigidBodies entity (some v') }
        else some s

/-- The `MiningMissleSystem` pass over the joined entity list. `missles` is
the `MiningMissle` component storage (the join visits exactly the entities
where it is present). -/
def missleRun (nrm : Vec3 → Vec3) (alive : Entity → Bool)
    (missles : Entity → Option Entity) (transforms : Entity → Option Transform)
    (s : MissleState) : List Entity → Option MissleState
  | [] => some s
  | e :: rest =>
    match missles e with
    | none => missleRun nrm alive missles transforms s rest
    | some target =>
      match missleStep nrm alive transforms s e target with
      | none => none
      | some s' => missleRun nrm alive missles transforms s' rest

/-! ### The persistent raycast world (`RaycastWorld`, `RaycastSystem`,
`RemoveRaycastColliderSystem`; physics.rs:229-340) -/

/-- One registered collision object of the persistent raycast world. -/
structure WorldObj where
  position : Iso
  shape : ShapeHandle
  groups : CollisionGroups
  entity : Entity
deriving DecidableEq, Repr

/-- The ncollide `CollisionWorld` as used for raycasting: slab-allocated
objects addressed by handle, modelled as an association list plus a fresh
handle counter. -/
structure CollisionWorldM where
  nextHandle : ℕ
  objs : List (ℕ × WorldObj)
deriving DecidableEq, Repr

def CollisionWorldM.emptyWorld : CollisionWorldM := ⟨0, []⟩

/-- Handle lookup (`world.get_mut`). -/
def CollisionWorldM.get (w : CollisionWorldM) (h : ℕ) : Option WorldObj :=
  (w.objs.find? (fun p => p.1 = h)).map Prod.snd

/-- In-place update of the object behind a handle (`set_position` and
`set_shape` on the borrowed collision object). -/
def CollisionWorldM.set (w : CollisionWorldM) (h : ℕ) (o : WorldObj) :
    CollisionWorldM :=
  { w with objs := w.objs.map (fun p => if p.1 = h then (h, o) else p) }

/-- `world.add`: insert a new collision object, returning its handle. -/
def CollisionWorldM.add (w : CollisionWorldM) (position : Iso)
    (shape : ShapeHandle) (groups : CollisionGroups) (entity : Entity) :
    ℕ × CollisionWorldM :=
  (w.nextHandle,
    ⟨w.nextHandle + 1, w.objs ++ [(w.nextHandle, ⟨position, shape, groups, entity⟩)]⟩)

/-- `world.remove(&[h])`. -/
def CollisionWorldM.removeHandle (w : CollisionWorldM) (h : ℕ) : CollisionWorldM :=
  { w with objs := w.objs.filter (fun p => p.1 ≠ h) }

/-- The state touched by `RaycastSystem` and `RemoveRaycastColliderSystem`:
the persistent raycast world, the `Collider` storage and the mesh manager. -/
structure RaycastState where
  world : CollisionWorldM
  colliders : Entity → Option Collider
  meshes : MeshManager

/-- One iteration of the `RaycastSystem` join (physics.rs:277-308): update the
existing registration in place when both handles are set, otherwise insert a
first-time registration with membership `{collider.group}` and whitelist
`{RAYCAST}` and assign both handles. A `none` result models the
`expect("Raycast ID does not exist in collision world!")` panic. Entities
outside the join (missing `Transform` or `Collider`) pass through
unchanged. -/
def raycastProcessOne (hitboxMeshes : HitboxMeshes)
    (transforms : Entity → Option Transform) (s : RaycastState) (e : Entity) :
    Option RaycastState :=
  match transforms e, s.colliders e with
  | some t, some c =>
    let position := toNalgebraPos t c.hitbox.offset
    let hitboxMesh := c.hitbox.toHitboxMesh hitboxMeshes
    let hitboxMatrix := c.hitbox.toHitboxModel t
    match c.raycastId, c.modelId with
    | some id, some model =>
      match s.world.get id with
      | none => none
      | some obj =>
        let obj' : WorldObj :=
          { obj with position := position, shape := c.hitbox.asShapeHandle }
        some { s with world := s.world.set id obj',
                      meshes := s.meshes.updateModel hitboxMesh model hitboxMatrix }
    | _, _ =>
      let shape := c.hitbox.asShapeHandle
      let group := (CollisionGroups.new.withMembership [c.group]).withWhitelist
        [Collider.RAYCAST]
      let (h, world') := s.world.add position shape group e
      let (m, meshes') := s.meshes.newModel hitboxMesh hitboxMatrix
      let c' : Collider := { c with raycastId := some h, modelId := some m }
      some ⟨world', upd s.colliders e (some c'), meshes'⟩
  | _, _ => some s

/-- The `RaycastSystem` pass over the joined entity list (the trailing
`world.update()` refreshes ncollide's internal phases and changes none of the
state modelled here). -/
def raycastRun (hitboxMeshes : HitboxMeshes)
    (transforms : Entity → Option Transform) (s : RaycastState) :
    List Entity → Option RaycastState
  | [] => some s
  | e :: rest =>
    match raycastProcessOne hitboxMeshes transforms s e with
    | none => none
    | some s' => raycastRun hitboxMeshes transforms s' rest

/-- One iteration of the `RemoveRaycastColliderSystem` join
(physics.rs:328-338): for an entity pending removal, drop its raycast-world
registration and its hitbox model and reset both handles to `None`. Entities
without a `Collider` are not in the join and pass through. -/
def removeRaycastOne (hitboxMeshes : HitboxMeshes) (s : RaycastState)
    (e : Entity) : RaycastState :=
  match s.colliders e with
  | none => s
  | some c =>
    let (world1, c1) :=
      match c.raycastId with
      | some id => (s.world.removeHandle id, { c with raycastId := none })
      | none => (s.world, c)
    let (meshes1, c2) :=
      match c1.modelId with
      | some id =>
        (s.meshes.removeModel (c1.hitbox.toHitboxMesh hitboxMeshes) id,
         { c1 with modelId := none })
      | none => (s.meshes, c1)
    ⟨world1, upd s.colliders e (some c2), meshes1⟩

/-- The `RemoveRaycastColliderSystem` pass over the entities joined against
the removal queue's bitset. -/
def removeRaycastRun (hitboxMeshes : HitboxMeshes) (s : RaycastState) :
    List Entity → RaycastState
  | [] => s
  | e :: rest => removeRaycastRun hitboxMeshes (removeRaycastOne hitboxMeshes s e) rest

/-! ### Ray queries (`RaycastWorld::raycast`, physics.rs:238-257)

The source normalises the ray direction and asks ncollide for the first
interference within a time of impact of `500.0` (a fixed "big number", per the
code's own TODO). The embedding keeps the direction unnormalised
(`far - near`, whose exact normalisation leaves ℚ) and measures a hit at
parameter `t` (the hit point being `origin + t • dir`); the source's cutoff
"distance along the normalised ray ≤ 500" is then exactly the rational
condition `t ≥ 0 ∧ t² · ‖dir‖² ≤ 500²`, and "closer hit" is exactly "smaller
`t`". The per-shape geometric test is ncollide's; it enters the embedding as
an explicit time-of-impact function `toi shape pos origin dir`, returning the
least `t ≥ 0` at which the ray meets the shape, `none` for a miss. -/

/-- A ray as used by the embedded queries: origin plus (unnormalised)
direction. -/
structure Ray where
  origin : Vec3
  dir : Vec3
deriving DecidableEq, Repr

/-- The shape of ncollide's per-object ray test, as explained above. -/
abbrev ToiFn : Type := ShapeHandle → Iso → Vec3 → Vec3 → Option ℚ

/-- One step of ncollide's search for the closest ray interference: keep the
better of the best hit so far and the candidate object, a hit counting only
when the object's groups can interact with the query groups and the time of
impact is non-negative and within distance 500 (`t² · ‖dir‖² ≤ 500²` for the
unnormalised direction). -/
def rayStep (toi : ToiFn) (ray : Ray) (groups : CollisionGroups)
    (best : Option (ℚ × Entity)) (p : ℕ × WorldObj) : Option (ℚ × Entity) :=
  let o := p.2
  if groups.canInteract o.groups then
    match toi o.shape o.position ray.origin ray.dir with
    | none => best
    | some t =>
      if 0 ≤ t ∧ t * t * ray.dir.normSq ≤ 500 * 500 then
        match best with
        | none => some (t, o.entity)
        | some (tb, eb) => if t < tb then some (t, o.entity) else some (tb, eb)
      else best
  else best

/-- ncollide's `first_interference_with_ray` with `max_toi = 500`: among the
registered objects whose groups can interact with the query groups and whose
time of impact exists, is non-negative and lies within distance 500, return
the hit with the least time of impact (with its entity payload). -/
def firstInterferenceWithRay (toi : ToiFn) (w : CollisionWorldM) (ray : Ray)
    (groups : CollisionGroups) : Option (ℚ × Entity) :=
  w.objs.foldl (rayStep toi ray groups) none

/-- A candidate object `p` is an admissible hit at parameter `t` for the
embedded 500-unit ray query: its groups pass the filter, its time of impact
is `t`, and `t` is non-negative and within distance 500. -/
def AdmissibleHit (toi : ToiFn) (ray : Ray) (groups : CollisionGroups)
    (p : ℕ × WorldObj) (t : ℚ) : Prop :=
  groups.canInteract p.2.groups = true ∧
  toi p.2.shape p.2.position ray.origin ray.dir = some t ∧
  0 ≤ t ∧ t * t * ray.dir.normSq ≤ 500 * 500

/-- The query groups built by `RaycastWorld::raycast`: `CollisionGroups::new()`
with the whitelist replaced when the given whitelist is non-empty. -/
def queryGroups (whitelist : List ℕ) : CollisionGroups :=
  if whitelist.isEmpty then CollisionGroups.new
  else CollisionGroups.new.withWhitelist whitelist

/-- `RaycastWorld::raycast`: the result is the entity of the first
interference along the ray from `near` toward `far`. -/
def RaycastWorld.raycast (toi : ToiFn) (w : CollisionWorldM) (whitelist : List ℕ)
    (near far : Vec3) : Option Entity :=
  let ray : Ray := ⟨near, far.sub near⟩
  (firstInterferenceWithRay toi w ray (queryGroups whitelist)).map Prod.snd

/-- The spec's wording of the query ("the first entity hit along the segment
from `ray_origin` to `ray_target`"): identical to `RaycastWorld.raycast`
except that a hit counts only when it lies on the SEGMENT between the two
points, i.e. at parameter `0 ≤ t ≤ 1` of the unnormalised ray. Stated for
comparison with the embedded source function. -/
def raycastSegmentSpec (toi : ToiFn) (w : CollisionWorldM) (whitelist : List ℕ)
    (near far : Vec3) : Option Entity :=
  let ray : Ray := ⟨near, far.sub near⟩
  let groups := queryGroups whitelist
  (w.objs.foldl
    (fun best p =>
      let o := p.2
      if groups.canInteract o.groups then
        match toi o.shape o.position ray.origin ray.dir with
        | none => best
        | some t =>
          if 0 ≤ t ∧ t ≤ 1 then
            match best with
            | none => some (t, o.entity)
            | some (tb, eb) => if t < tb then some (t, o.entity) else some (tb, eb)
          else best
      else best)
    (none : Option (ℚ × Entity))).map Prod.snd

/-- Exact ray/axis-aligned-box intersection by the slab method: the least
parameter `t ≥ 0` with `origin + t • dir` inside the box of half-extents `he`
centred at `c`, `none` if the ray misses. Runs in exact rational
arithmetic. -/
def cuboidToi (c he origin dir : Vec3) : Option ℚ :=
  let axes : List (ℚ × ℚ × ℚ × ℚ) :=
    [(origin.x, dir.x, c.x - he.x, c.x + he.x),
     (origin.y, dir.y, c.y - he.y, c.y + he.y),
     (origin.z, dir.z, c.z - he.z, c.z + he.z)]
  let r : Option (Option (ℚ × ℚ)) :=
    axes.foldl
      (fun acc q =>
        match acc with
        | none => none
        | some cur =>
          let o := q.1
          let d := q.2.1
          let lo := q.2.2.1
          let hi := q.2.2.2
          if d = 0 then (if lo ≤ o ∧ o ≤ hi then some cur else none)
          else
            let t1 := (lo - o) / d
            let t2 := (hi - o) / d
            let l := min t1 t2
            let h := max t1 t2
            match cur with
            | none => some (some (l, h))
            | some (cl, ch) =>
              let l' := max cl l
              let h' := min ch h
              if l' ≤ h' then some (some (l', h')) else none)
      (some none)
  match r with
  | none => none
  | some none => some 0
  | some (some (l, h)) => if h < 0 then none else some (max l 0)

/-- A concrete instance of the ncollide ray test, exact for axis-aligned
cuboids (the only geometry the concrete scenes in this development use);
rotated cuboids and balls (whose exact time of impact is irrational in
general) conservatively report no hit. -/
def modelToi : ToiFn := fun shape pos origin dir =>
  match shape with
  | .cuboidHalf he =>
    if pos.rotation = Quat.identity then cuboidToi pos.translation he origin dir
    else none
  | .ball _ => none

/-- A one-object scene for concrete ray-query evaluations: an axis-aligned
cuboid of half-extents `(1,1,1)` centred at `(0,0,10)`, registered the way
`RaycastSystem` registers colliders (membership `[ASTEROID]`, whitelist
`[RAYCAST]`). -/
def demoRayWorld : CollisionWorldM :=
  ⟨1, [(0, ⟨⟨⟨0, 0, 10⟩, Quat.identity⟩, .cuboidHalf ⟨1, 1, 1⟩,
    ⟨[1], [0], []⟩, ⟨42, 0⟩⟩)]⟩

/-! ### Predicates used by the claim statements -/

/-- A build action that is either a `BuildFloor` or a `BuildBlock` whose block
resolves in the catalog to a non-gadget block. -/
def nonGadgetOrFloor (blocks : Blocks) : BuildAction → Bool
  | .buildFloor _ _ => true
  | .buildBlock _ id =>
    match blocks.getBlock id with
    | some b => !b.isGadget
    | none => false
  | _ => false

/-- The ship whose block is struck by a contact event, exactly as the
contact-processing branch determines it: when either side carries a
`BlockEntity`, the side that does (`e1` preferred) names the ship. -/
def struckShip (blocks : Entity → Option BlockEntity) : ContactEvent → Option Entity
  | .started e1 e2 =>
    if hasComponent e1 e2 blocks then
      (blocks (if (blocks e1).isSome then e1 else e2)).map BlockEntity.ship
    else none
  | .stopped _ _ => none

/-- A contact-started event between a block-carrying entity on one side and
an asteroid-carrying entity on the other, neither side being a missile — the
only kind of started event the collision-group configuration lets a block
take part in (blocks interact only with the ASTEROID group). `stopped`
events are unconstrained (the code ignores them). -/
def BlockAsteroidEvent (blocks : Entity → Option BlockEntity)
    (asteroids : Entity → Option GameItem) (missles : Entity → Option Entity) :
    ContactEvent → Prop
  | .started e1 e2 =>
    missles e1 = none ∧ missles e2 = none ∧
    (((blocks e1).isSome ∧ blocks e2 = none ∧ asteroids e1 = none ∧
        (asteroids e2).isSome) ∨
     (blocks e1 = none ∧ (blocks e2).isSome ∧ (asteroids e1).isSome ∧
        asteroids e2 = none))
  | .stopped _ _ => True

/-- Well-formedness of the raycast-registration state: world handles are
below the allocator watermark, and every collider either carries both
handles, with its raycast handle resolving to a world object registered for
that same entity, or carries neither. -/
def RaycastWF (s : RaycastState) : Prop :=
  (∀ p ∈ s.world.objs, p.1 < s.world.nextHandle) ∧
  (∀ e c, s.colliders e = some c →
    (∃ h m, c.raycastId = some h ∧ c.modelId = some m ∧
      ∃ obj, s.world.get h = some obj ∧ obj.entity = e) ∨
    (c.raycastId = none ∧ c.modelId = none))

/-! ## Theorems -/

lemma damage_le (h : Health) (n : ℕ) : Health.damage h n ≤ h := Nat.sub_le _ _

lemma foldl_damage_le (ns : List ℕ) : ∀ h : Health, List.foldl Health.damage h ns ≤ h := by
  induction ns with
  | nil => intro h; exact le_refl h
  | cons a t ih =>
    intro h
    calc List.foldl Health.damage h (a :: t)
        = List.foldl Health.damage (Health.damage h a) t := rfl
      _ ≤ Health.damage h a := ih _
      _ ≤ h := damage_le h a

/-- C8: health is non-increasing under any single `damage` call and any
sequence of `damage` calls and never drops below zero; `damage n` with
`n ≥` the remaining amount clamps to exactly 0 (the subtrahend
`min n h ≤ h`, so the `u32` subtraction cannot underflow), and with
`n <` the remaining amount it decreases the amount by exactly `n`. -/
theorem health_damage_monotone_clamped (h : Health) (ns : List ℕ) (n : ℕ) :
    Health.damage h n ≤ h ∧
    List.foldl Health.damage h ns ≤ h ∧
    (h ≤ n → Health.damage h n = 0) ∧
    (n < h → (Health.damage h n : ℤ) = (h : ℤ) - (n : ℤ)) ∧
    min n h ≤ h := by
  refine ⟨damage_le h n, foldl_damage_le ns h, ?_, ?_, min_le_right n h⟩
  · intro hle
    simp only [Health.damage, min_eq_right hle, Nat.sub_self]
  · intro hlt
    have hm : min n h = n := min_eq_left (le_of_lt hlt)
    simp only [Health.damage, hm]
    omega

/-- Witness for C8 at a concrete input. -/
theorem health_damage_monotone_clamped_witness :
    Health.damage 5 9 = 0 ∧ (Health.damage 9 5 : ℤ) = (9 : ℤ) - 5 ∧
    List.foldl Health.damage 7 [2, 9, 1] ≤ 7 := by
  refine ⟨?_, ?_, ?_⟩
  · exact (health_damage_monotone_clamped 5 [] 9).2.2.1 (by decide)
  · exact (health_damage_monotone_clamped 9 [] 5).2.2.2.1 (by decide)
  · exact (health_damage_monotone_clamped 7 [2, 9, 1] 0).2.1

lemma tbr_add_mem_mono {q : ToBeRemoved} {x e : Entity} (hm : e ∈ q.vec) :
    e ∈ (q.add x).vec := by
  unfold ToBeRemoved.add
  split
  · exact hm
  · exact List.mem_append_left _ hm

lemma tbr_add_mem_self (q : ToBeRemoved) (e : Entity) : e ∈ (q.add e).vec := by
  unfold ToBeRemoved.add
  split
  · assumption
  · exact List.mem_append_right _ (List.mem_singleton_self e)

lemma tbr_add_count_le {q : ToBeRemoved} {e : Entity} (x : Entity)
    (hc : q.vec.count e ≤ 1) : (q.add x).vec.count e ≤ 1 := by
  unfold ToBeRemoved.add
  split
  · exact hc
  · rename_i hnotmem
    rw [List.count_append]
    by_cases hx : x = e
    · subst hx
      have h0 : q.vec.count x = 0 := List.count_eq_zero.mpr hnotmem
      simp [h0]
    · have h1 : List.count e [x] = 0 := by
        simp [List.count_singleton', hx]
      omega

lemma tbr_add_bit {q : ToBeRemoved} {e : Entity}
    (hb : e ∈ q.vec → e.id ∈ q.bitset) (x : Entity) :
    e ∈ (q.add x).vec → e.id ∈ (q.add x).bitset := by
  unfold ToBeRemoved.add
  split
  · exact hb
  · intro hmem
    rcases List.mem_append.mp hmem with hl | hr
    · exact Finset.mem_insert_of_mem (hb hl)
    · have : e = x := List.mem_singleton.mp hr
      subst this
      exact Finset.mem_insert_self _ _

lemma tbr_fold_invariant (es : List Entity) (e : Entity) :
    ∀ q : ToBeRemoved, q.vec.count e ≤ 1 → (e ∈ q.vec → e.id ∈ q.bitset) →
      ((es.foldl ToBeRemoved.add q).vec.count e ≤ 1 ∧
       (e ∈ (es.foldl ToBeRemoved.add q).vec → e.id ∈ (es.foldl ToBeRemoved.add q).bitset) ∧
       ((e ∈ q.vec ∨ e ∈ es) → e ∈ (es.foldl ToBeRemoved.add q).vec)) := by
  induction es with
  | nil =>
    intro q hc hb
    refine ⟨hc, hb, ?_⟩
    rintro (hq | hes)
    · exact hq
    · cases hes
  | cons x t ih =>
    intro q hc hb
    have step := ih (q.add x) (tbr_add_count_le x hc) (tbr_add_bit hb x)
    refine ⟨step.1, step.2.1, ?_⟩
    rintro (hq | hes)
    · exact step.2.2 (Or.inl (tbr_add_mem_mono hq))
    · rcases List.mem_cons.mp hes with hx | ht
      · subst hx
        exact step.2.2 (Or.inl (tbr_add_mem_self q e))
      · exact step.2.2 (Or.inr ht)

/-- C5: `ToBeRemoved.add` is idempotent — after any sequence of `add` calls
(applied to the empty queue) that contains an entity `e` more than once, `e`
appears exactly once in the iterable slice and its id is in the bitset, so
the drain loop deletes it once and the bitset-joined cleanup systems visit it
once; `clear` empties both views. -/
theorem tbr_add_idempotent (es : List Entity) (e : Entity)
    (hdup : 2 ≤ es.count e) :
    (es.foldl ToBeRemoved.add ToBeRemoved.empty).vec.count e = 1 ∧
    e.id ∈ (es.foldl ToBeRemoved.add ToBeRemoved.empty).bitset ∧
    (∀ q : ToBeRemoved, q.clear.vec = [] ∧ q.clear.bitset = ∅) := by
  have hmem : e ∈ es := by
    have : 0 < es.count e := by omega
    exact List.count_pos_iff.mp this
  have base := tbr_fold_invariant es e ToBeRemoved.empty (by simp [ToBeRemoved.empty])
    (by simp [ToBeRemoved.empty])
  have hin : e ∈ (es.foldl ToBeRemoved.add ToBeRemoved.empty).vec :=
    base.2.2 (Or.inr hmem)
  have hpos : 0 < (es.foldl ToBeRemoved.add ToBeRemoved.empty).vec.count e :=
    List.count_pos_iff.mpr hin
  exact ⟨by omega, base.2.1 hin, fun q => ⟨rfl, rfl⟩⟩

/-- Witness for C5 at a concrete input. -/
theorem tbr_add_idempotent_witness :
    (([⟨4, 1⟩, ⟨2, 0⟩, ⟨4, 1⟩] : List Entity).foldl ToBeRemoved.add
      ToBeRemoved.empty).vec.count ⟨4, 1⟩ = 1 :=
  (tbr_add_idempotent [⟨4, 1⟩, ⟨2, 0⟩, ⟨4, 1⟩] ⟨4, 1⟩ (by decide)).1

lemma execStep_nonGadget_inventory (blocks : Blocks)
    (blockEntities : Entity → Option BlockEntity) (shipEntity : Entity)
    (ignorePrice : Bool) (s : BuildState) (a : BuildAction)
    (ha : nonGadgetOrFloor blocks a = true) :
    (execStep blocks blockEntities shipEntity ignorePrice s a).state.inventory
      = s.inventory := by
  cases a with
  | buildFloor pos floor =>
    simp only [execStep, BuildState.alloc]
    split
    · rfl
    · rfl
  | buildBlock pos blockId =>
    rcases hb : blocks.getBlock blockId with _ | b
    · simp [nonGadgetOrFloor, hb] at ha
    · have hng : b.isGadget = false := by
        simp [nonGadgetOrFloor, hb] at ha
        exact ha
      simp only [execStep, hb, hng, Bool.false_eq_true, if_false, BuildState.alloc]
      split
      · rfl
      · split
        · rfl
        · rfl
  | removeBlock pos => simp [nonGadgetOrFloor] at ha
  | removeFloor pos => simp [nonGadgetOrFloor] at ha

/-- C10: a batch consisting only of non-gadget `BuildBlock` actions and
`BuildFloor` actions leaves the `Inventory` resource unchanged, whatever the
value of `ignore_price` — cost enforcement lives only in the gadget branch. -/
theorem build_nonGadget_inventory_frame (blocks : Blocks)
    (blockEntities : Entity → Option BlockEntity) (shipEntity : Entity)
    (ignorePrice : Bool) (s : BuildState) (actions : List BuildAction)
    (h : ∀ a ∈ actions, nonGadgetOrFloor blocks a = true) :
    (execBuildActions blocks blockEntities shipEntity ignorePrice s
      actions).state.inventory = s.inventory := by
  induction actions generalizing s with
  | nil => rfl
  | cons a rest ih =>
    have ha : nonGadgetOrFloor blocks a = true := h a (List.mem_cons_self a rest)
    have hrest : ∀ b ∈ rest, nonGadgetOrFloor blocks b = true :=
      fun b hb => h b (List.mem_cons_of_mem a hb)
    have hstepinv := execStep_nonGadget_inventory blocks blockEntities shipEntity
      ignorePrice s a ha
    cases hstep : execStep blocks blockEntities shipEntity ignorePrice s a with
    | ok s' =>
      rw [hstep] at hstepinv
      simp only [execBuildActions, hstep]
      rw [ih s' hrest]
      exact hstepinv
    | brk s' =>
      rw [hstep] at hstepinv
      simp only [execBuildActions, hstep]
      exact hstepinv
    | panic s' =>
      rw [hstep] at hstepinv
      simp only [execBuildActions, hstep]
      exact hstepinv

/-- Witness for C10 at a concrete input: a wall-like non-gadget block and a
floor, built with `ignore_price = false`, leave a non-empty inventory
untouched. -/
theorem build_nonGadget_inventory_frame_witness :
    (execBuildActions
      ⟨[⟨0, 5, (1, 1), 3, Hitbox.withShape (.cuboid ⟨1, 1, 3⟩), none, false, []⟩]⟩
      (fun _ => none) ⟨9, 0⟩ false
      ⟨⟨0, fun p => if p = (1, 1) ∨ p = (2, 1) then some Tile.emptyTile else none⟩,
        fun _ => 3, [], 0⟩
      [.buildBlock (1, 1) 0, .buildFloor (2, 1) ⟨7⟩]).state.inventory
      = (fun _ => 3) := by
  have h := build_nonGadget_inventory_frame
    ⟨[⟨0, 5, (1, 1), 3, Hitbox.withShape (.cuboid ⟨1, 1, 3⟩), none, false, []⟩]⟩
    (fun _ => none) ⟨9, 0⟩ false
    ⟨⟨0, fun p => if p = (1, 1) ∨ p = (2, 1) then some Tile.emptyTile else none⟩,
      fun _ => 3, [], 0⟩
    [.buildBlock (1, 1) 0, .buildFloor (2, 1) ⟨7⟩]
    (by decide)
  exact h

/-- C3: a gadget `BuildBlock` whose target tile has no base block — the tile
is absent, its block slot is empty, or the block entity carries no
`BlockEntity` component — creates no entity, deducts nothing, and the loop
continues with the next action, whatever the value of `ignore_price`. (Every
gadget in the game's block catalog is single-cell, as the `size` hypothesis
records; a multi-cell gadget would abort at the `unimplemented!` guard
instead.) -/
theorem gadget_no_base_skips (blocks : Blocks)
    (blockEntities : Entity → Option BlockEntity) (shipEntity : Entity)
    (ignorePrice : Bool) (s : BuildState) (pos : Point) (blockId : BlockId)
    (rest : List BuildAction) (block : Block)
    (hb : blocks.getBlock blockId = some block)
    (hg : block.isGadget = true)
    (hsz : block.size.1 ≤ 1 ∧ block.size.2 ≤ 1)
    (hnb : ((s.ship.tiles pos).bind Tile.block).bind blockEntities = none) :
    execStep blocks blockEntities shipEntity ignorePrice s
        (.buildBlock pos blockId) = .ok s ∧
    execBuildActions blocks blockEntities shipEntity ignorePrice s
        (.buildBlock pos blockId :: rest)
      = execBuildActions blocks blockEntities shipEntity ignorePrice s rest := by
  have hstep : execStep blocks blockEntities shipEntity ignorePrice s
      (.buildBlock pos blockId) = .ok s := by
    have hsz' : ¬(1 < block.size.1 ∨ 1 < block.size.2) := by omega
    simp only [execStep, hb, hg, if_true, hsz', if_false, hnb]
  exact ⟨hstep, by simp only [execBuildActions, hstep]⟩

/-- Witness for C3 at a concrete input: a gadget build over an empty tile is
skipped outright. -/
theorem gadget_no_base_skips_witness :
    execStep ⟨[⟨0, 5, (1, 1), 3, Hitbox.withShape (.cuboid ⟨1, 1, 1⟩), none, true, []⟩]⟩
      (fun _ => none) ⟨9, 0⟩ false
      ⟨⟨0, fun p => if p = (1, 1) then some Tile.emptyTile else none⟩, fun _ => 0, [], 0⟩
      (.buildBlock (1, 1) 0)
      = .ok ⟨⟨0, fun p => if p = (1, 1) then some Tile.emptyTile else none⟩,
          fun _ => 0, [], 0⟩ :=
  (gadget_no_base_skips _ _ _ _ _ _ _ []
    ⟨0, 5, (1, 1), 3, Hitbox.withShape (.cuboid ⟨1, 1, 1⟩), none, true, []⟩
    (by decide) (by decide) (by decide) (by decide)).1

/-- C2: with `ignore_price = false`, a two-action batch whose first action is
a gadget `BuildBlock` with a base block present at the target tile and a cost
list containing a stack of 5 of an item the inventory holds 0 of, is
abandoned at that first action: the final state is exactly the initial one —
no entity from either action, inventory unchanged. -/
theorem unaffordable_gadget_abandons_batch (blocks : Blocks)
    (blockEntities : Entity → Option BlockEntity) (shipEntity : Entity)
    (s : BuildState) (pos : Point) (blockId : BlockId) (block : Block)
    (a2 : BuildAction) (x : GameItem)
    (hb : blocks.getBlock blockId = some block)
    (hg : block.isGadget = true)
    (hcost : (⟨x, 5⟩ : ItemStack) ∈ block.cost)
    (hinv : s.inventory x = 0)
    (hbase : ((s.ship.tiles pos).bind Tile.block).bind blockEntities ≠ none) :
    (execBuildActions blocks blockEntities shipEntity false s
      [.buildBlock pos blockId, a2]).state = s := by
  obtain ⟨be, hbe⟩ := Option.ne_none_iff_exists'.mp hbase
  by_cases hsz : 1 < block.size.1 ∨ 1 < block.size.2
  · have hstep : execStep blocks blockEntities shipEntity false s
        (.buildBlock pos blockId) = .panic s := by
      simp only [execStep, hb, hg, if_true, hsz, if_pos]
    simp only [execBuildActions, hstep, ExecOut.state]
  · rcases hbb : blocks.getBlock be.blockId with _ | base
    · have hstep : execStep blocks blockEntities shipEntity false s
          (.buildBlock pos blockId) = .panic s := by
        simp only [execStep, hb, hg, if_true, hsz, if_false, hbe, hbb]
      simp only [execBuildActions, hstep, ExecOut.state]
    · have hfail : s.inventory.hasEnoughItems ⟨x, 5⟩ = false := by
        simp [Inventory.hasEnoughItems, Inventory.amount, hinv]
      have hmemf : (⟨x, 5⟩ : ItemStack) ∈
          block.cost.filter (fun c => !s.inventory.hasEnoughItems c) :=
        List.mem_filter.mpr ⟨hcost, by simp [hfail]⟩
      have hlen : 0 <
          (block.cost.filter (fun c => !s.inventory.hasEnoughItems c)).length :=
        List.length_pos.mpr (List.ne_nil_of_mem hmemf)
      have hstep : execStep blocks blockEntities shipEntity false s
          (.buildBlock pos blockId) = .brk s := by
        simp only [execStep, hb, hg, if_true, hsz, if_false, hbe, hbb]
        rw [if_pos]
        exact ⟨by simp, hlen⟩
      simp only [execBuildActions, hstep, ExecOut.state]

/-- Witness for C2 at a concrete input: a laser-like gadget costing 5 iron
over a wall base, with an empty inventory, leaves the whole state
untouched. -/
theorem unaffordable_gadget_abandons_batch_witness :
    (execBuildActions
      ⟨[⟨0, 5, (1, 1), 3, Hitbox.withShape (.cuboid ⟨1, 1, 3⟩), none, false, []⟩,
        ⟨1, 6, (1, 1), 1, Hitbox.withShape (.cuboid ⟨1, 1, 1⟩), none, true,
          [⟨GameItem.iron, 5⟩]⟩]⟩
      (fun e => if e = ⟨3, 0⟩ then some ⟨⟨9, 0⟩, 0, (1, 1)⟩ else none) ⟨9, 0⟩ false
      ⟨⟨0, fun p => if p = (1, 1) then some ⟨some ⟨3, 0⟩, none, none⟩ else none⟩,
        fun _ => 0, [], 4⟩
      [.buildBlock (1, 1) 1, .buildFloor (1, 1) ⟨7⟩]).state
      = ⟨⟨0, fun p => if p = (1, 1) then some ⟨some ⟨3, 0⟩, none, none⟩ else none⟩,
          fun _ => 0, [], 4⟩ :=
  unaffordable_gadget_abandons_batch _ _ _ _ _ _
    ⟨1, 6, (1, 1), 1, Hitbox.withShape (.cuboid ⟨1, 1, 1⟩), none, true,
      [⟨GameItem.iron, 5⟩]⟩
    _ GameItem.iron (by decide) (by decide) (by decide) (by decide) (by decide)

/-- C1 (code bug witness): a `BuildFloor` action at an in-bounds coordinate
lazily creates an entity whose `Model` carries the requested floor's mesh id,
but stores that entity in the tile's BLOCK slot, leaving the `floor` slot
`None` — `ship.rs:175` assigns `.block` where the spec's tile-occupancy
invariant requires the floor slot. -/
theorem buildfloor_populates_block_slot_not_floor :
    (execBuildActions ⟨[]⟩ (fun _ => none) ⟨9, 0⟩ true
        ⟨⟨0, fun p => if p = (1, 1) then some Tile.emptyTile else none⟩,
          fun _ => 0, [], 0⟩
        [.buildFloor (1, 1) ⟨7⟩]).state.ship.tiles (1, 1)
      = some ⟨some ⟨0, 0⟩, none, none⟩ ∧
    (execBuildActions ⟨[]⟩ (fun _ => none) ⟨9, 0⟩ true
        ⟨⟨0, fun p => if p = (1, 1) then some Tile.emptyTile else none⟩,
          fun _ => 0, [], 0⟩
        [.buildFloor (1, 1) ⟨7⟩]).state.pending.map
        (fun p => (p.entity, p.modelMesh))
      = [(⟨0, 0⟩, 7)] := by
  constructor
  · decide
  · decide

lemma missleStep_tbr_mono {nrm : Vec3 → Vec3} {alive : Entity → Bool}
    {transforms : Entity → Option Transform} {s : MissleState} {e target : Entity}
    {s' : MissleState}
    (h : missleStep nrm alive transforms s e target = some s') (x : Entity)
    (hx : x ∈ s.tbr.vec) : x ∈ s'.tbr.vec := by
  unfold missleStep at h
  split at h
  · injection h with h'
    subst h'
    exact tbr_add_mem_mono hx
  · repeat' split at h
    all_goals try simp only [] at h
    all_goals repeat' split at h
    all_goals first
      | exact Option.noConfusion h
      | (injection h with h'; subst h'; exact hx)

lemma missleRun_tbr_mono {nrm : Vec3 → Vec3} {alive : Entity → Bool}
    {missles : Entity → Option Entity} {transforms : Entity → Option Transform} :
    ∀ (es : List Entity) (s s' : MissleState),
      missleRun nrm alive missles transforms s es = some s' →
      ∀ x ∈ s.tbr.vec, x ∈ s'.tbr.vec := by
  intro es
  induction es with
  | nil =>
    intro s s' h x hx
    simp only [missleRun] at h
    injection h with h'
    subst h'
    exact hx
  | cons y rest ih =>
    intro s s' h x hx
    cases hy : missles y with
    | none =>
      simp only [missleRun, hy] at h
      exact ih s s' h x hx
    | some t' =>
      cases hstep : missleStep nrm alive transforms s y t' with
      | none =>
        simp only [missleRun, hy, hstep] at h
        exact Option.noConfusion h
      | some s1 =>
        simp only [missleRun, hy, hstep] at h
        exact ih s1 s' h x (missleStep_tbr_mono hstep x hx)

lemma missleRun_dead_mem {nrm : Vec3 → Vec3} {alive : Entity → Bool}
    {missles : Entity → Option Entity} {transforms : Entity → Option Transform}
    (e target : Entity) (hm : missles e = some target)
    (hdead : alive target = false) :
    ∀ (es : List Entity) (s s' : MissleState), e ∈ es →
      missleRun nrm alive missles transforms s es = some s' →
      e ∈ s'.tbr.vec := by
  intro es
  induction es with
  | nil => intro s s' hmem; cases hmem
  | cons y rest ih =>
    intro s s' hmem hrun
    rcases List.mem_cons.mp hmem with rfl | hrest
    · have hstep : missleStep nrm alive transforms s e target
          = some { s with tbr := s.tbr.add e } := by
        simp [missleStep, hdead]
      simp only [missleRun, hm, hstep] at hrun
      exact missleRun_tbr_mono rest _ s' hrun e (tbr_add_mem_self s.tbr e)
    · cases hy : missles y with
      | none => simp only [missleRun, hy] at hrun; exact ih s s' hrest hrun
      | some t' =>
        cases hstep : missleStep nrm alive transforms s y t' with
        | none =>
          simp only [missleRun, hy, hstep] at hrun
          exact Option.noConfusion hrun
        | some s1 =>
          simp only [missleRun, hy, hstep] at hrun
          exact ih s1 s' hrest hrun

/-- C9: a mining missile whose target fails the liveness check adds itself to
the removal queue and changes nothing else — the step's result is this exact
state for EVERY transform storage, in particular ones where the dead target
has no `Transform` at all, so no component of the dead target is ever looked
up and the step cannot panic on it; and across a whole system pass the
missile ends up in the removal queue. Component accesses on the target occur
only in the `else` branch guarded by the liveness check. -/
theorem missle_dead_target_queued (nrm : Vec3 → Vec3) (alive : Entity → Bool)
    (missles : Entity → Option Entity) (transforms : Entity → Option Transform)
    (s : MissleState) (e target : Entity)
    (hdead : alive target = false) :
    (missleStep nrm alive transforms s e target
      = some { s with tbr := s.tbr.add e }) ∧
    (∀ (es : List Entity) (s' : MissleState), missles e = some target → e ∈ es →
      missleRun nrm alive missles transforms s es = some s' → e ∈ s'.tbr.vec) := by
  constructor
  · simp [missleStep, hdead]
  · intro es s' hm hmem hrun
    exact missleRun_dead_mem e target hm hdead es s s' hmem hrun

/-- Witness for C9 at a concrete input: the dead-target missile is queued
even though the target (and everything else) has no `Transform`
component. -/
theorem missle_dead_target_queued_witness :
    missleStep (fun v => v) (fun _ => false) (fun _ => none)
      ⟨ToBeRemoved.empty, fun _ => none⟩ ⟨5, 0⟩ ⟨6, 0⟩
      = some ⟨ToBeRemoved.empty.add ⟨5, 0⟩, fun _ => none⟩ :=
  (missle_dead_target_queued (fun v => v) (fun _ => false) (fun _ => none)
    (fun _ => none) ⟨ToBeRemoved.empty, fun _ => none⟩ ⟨5, 0⟩ ⟨6, 0⟩ rfl).1

lemma upd_isSome_mono {α β : Type} [DecidableEq α] (f : α → Option β) (a : α)
    (v : β) (x : α) (h : (f x).isSome = true) :
    ((upd f a (some v)) x).isSome = true := by
  unfold upd
  split
  · rfl
  · exact h

lemma struckShip_started_left {blocks : Entity → Option BlockEntity}
    {e1 e2 : Entity} {be : BlockEntity} (h1 : blocks e1 = some be) :
    struckShip blocks (.started e1 e2) = some be.ship := by
  simp [struckShip, hasComponent, h1]

lemma struckShip_started_right {blocks : Entity → Option BlockEntity}
    {e1 e2 : Entity} {be : BlockEntity} (h1 : blocks e1 = none)
    (h2 : blocks e2 = some be) :
    struckShip blocks (.started e1 e2) = some be.ship := by
  simp [struckShip, hasComponent, h1, h2]

lemma processContactEvent_left {blocks : Entity → Option BlockEntity}
    {asteroids : Entity → Option GameItem} {missles : Entity → Option Entity}
    {s : PhysState} {e1 e2 : Entity} {be : BlockEntity} {ship0 : Ship}
    (hb1 : blocks e1 = some be) (hb2 : blocks e2 = none)
    (ha1 : asteroids e1 = none) (ha2 : (asteroids e2).isSome = true)
    (hm1 : missles e1 = none) (hm2 : missles e2 = none)
    (hs : s.ships be.ship = some ship0) :
    processContactEvent blocks asteroids missles s (.started e1 e2)
      = some ⟨s.tbr.add e2,
          upd s.ships be.ship (some { ship0 with heat := ship0.heat + 20 })⟩ := by
  simp [processContactEvent, hasComponent, hb1, hb2, ha1, ha2, hm1, hm2, hs]

lemma processContactEvent_right {blocks : Entity → Option BlockEntity}
    {asteroids : Entity → Option GameItem} {missles : Entity → Option Entity}
    {s : PhysState} {e1 e2 : Entity} {be : BlockEntity} {ship0 : Ship}
    (hb1 : blocks e1 = none) (hb2 : blocks e2 = some be)
    (ha1 : (asteroids e1).isSome = true) (ha2 : asteroids e2 = none)
    (hm1 : missles e1 = none) (hm2 : missles e2 = none)
    (hs : s.ships be.ship = some ship0) :
    processContactEvent blocks asteroids missles s (.started e1 e2)
      = some ⟨s.tbr.add e1,
          upd s.ships be.ship (some { ship0 with heat := ship0.heat + 20 })⟩ := by
  simp [processContactEvent, hasComponent, hb1, hb2, ha1, ha2, hm1, hm2, hs]

/-- C4: over a physics tick whose contact-started events each pair a block
with an asteroid (the only pairing the group configuration allows a block),
every struck asteroid ends up in the removal queue, and every ship's heat
grows by exactly `20` for each started event that strikes one of its blocks;
the removal queue is only ever added to. -/
theorem physics_block_asteroid_contacts (blocks : Entity → Option BlockEntity)
    (asteroids : Entity → Option GameItem) (missles : Entity → Option Entity)
    (s : PhysState) (events : List ContactEvent)
    (hev : ∀ ev ∈ events, BlockAsteroidEvent blocks asteroids missles ev)
    (hships : ∀ ev ∈ events, ∀ se, struckShip blocks ev = some se →
      (s.ships se).isSome = true) :
    ∃ s', processContacts blocks asteroids missles s events = some s' ∧
      (∀ shipE ship, s.ships shipE = some ship →
        ∃ ship', s'.ships shipE = some ship' ∧
          ship'.heat = ship.heat + 20 * (events.countP
            (fun ev => decide (struckShip blocks ev = some shipE)) : ℕ) ∧
          ship'.tiles = ship.tiles) ∧
      (∀ e1 e2, ContactEvent.started e1 e2 ∈ events →
        ((asteroids e1).isSome = true → e1 ∈ s'.tbr.vec) ∧
        ((asteroids e2).isSome = true → e2 ∈ s'.tbr.vec)) ∧
      (∀ x ∈ s.tbr.vec, x ∈ s'.tbr.vec) := by
  induction events generalizing s with
  | nil =>
    refine ⟨s, rfl, ?_, ?_, ?_⟩
    · intro shipE ship hs
      exact ⟨ship, hs, by simp, rfl⟩
    · intro e1 e2 hmem
      cases hmem
    · intro x hx
      exact hx
  | cons ev rest ih =>
    have hev0 := hev ev (List.mem_cons_self _ _)
    have hevr : ∀ e ∈ rest, BlockAsteroidEvent blocks asteroids missles e :=
      fun e he => hev e (List.mem_cons_of_mem _ he)
    cases ev with
    | stopped a b =>
      have hshipsr : ∀ ev2 ∈ rest, ∀ se, struckShip blocks ev2 = some se →
          (s.ships se).isSome = true :=
        fun ev2 he => hships ev2 (List.mem_cons_of_mem _ he)
      obtain ⟨s', hrun, hheat, hqueue, hmono⟩ := ih s hevr hshipsr
      refine ⟨s', ?_, ?_, ?_, hmono⟩
      · simp only [processContacts, processContactEvent]
        exact hrun
      · intro shipE ship hs
        obtain ⟨ship', h1, h2, h3⟩ := hheat shipE ship hs
        refine ⟨ship', h1, ?_, h3⟩
        rw [h2]
        simp [List.countP_cons, struckShip]
      · intro f1 f2 hmem
        rcases List.mem_cons.mp hmem with heq | hr
        · cases heq
        · exact hqueue f1 f2 hr
    | started e1 e2 =>
      obtain ⟨hm1, hm2, horient⟩ := hev0
      rcases horient with ⟨hb1s, hb2, ha1, ha2⟩ | ⟨hb1, hb2s, ha1, ha2⟩
      · obtain ⟨be, hb1⟩ := Option.isSome_iff_exists.mp hb1s
        have hstruck := @struckShip_started_left blocks e1 e2 be hb1
        have hshE : (s.ships be.ship).isSome = true :=
          hships _ (List.mem_cons_self _ _) be.ship hstruck
        obtain ⟨ship0, hs0⟩ := Option.isSome_iff_exists.mp hshE
        have hstep := processContactEvent_left hb1 hb2 ha1 ha2 hm1 hm2 hs0
        set s1 : PhysState := ⟨s.tbr.add e2,
          upd s.ships be.ship (some { ship0 with heat := ship0.heat + 20 })⟩ with hs1def
        have hshipsr : ∀ ev2 ∈ rest, ∀ se, struckShip blocks ev2 = some se →
            (s1.ships se).isSome = true := by
          intro ev2 he se hse
          exact upd_isSome_mono _ _ _ _
            (hships ev2 (List.mem_cons_of_mem _ he) se hse)
        obtain ⟨s', hrun, hheat, hqueue, hmono⟩ := ih s1 hevr hshipsr
        refine ⟨s', ?_, ?_, ?_, ?_⟩
        · simp only [processContacts, hstep]
          exact hrun
        · intro shipE ship hs
          by_cases heq : shipE = be.ship
          · have hs' : s.ships be.ship = some ship := by rw [← heq]; exact hs
            have hshipeq : ship0 = ship := by
              rw [hs0] at hs'
              injection hs'
            have hs1ship : s1.ships shipE
                = some { ship0 with heat := ship0.heat + 20 } := by
              simp [hs1def, upd, heq]
            obtain ⟨ship', h1, h2, h3⟩ := hheat shipE _ hs1ship
            refine ⟨ship', h1, ?_, by rw [h3, ← hshipeq]⟩
            have hcnt : List.countP
                (fun ev => decide (struckShip blocks ev = some shipE))
                (ContactEvent.started e1 e2 :: rest)
                = List.countP
                  (fun ev => decide (struckShip blocks ev = some shipE)) rest
                  + 1 := by
              simp [List.countP_cons, hstruck, heq]
            rw [h2, ← hshipeq, hcnt]
            push_cast
            ring
          · have hs1ship : s1.ships shipE = s.ships shipE := by
              simp only [hs1def, upd]
              rw [if_neg heq]
            rw [← hs1ship] at hs
            obtain ⟨ship', h1, h2, h3⟩ := hheat shipE ship hs
            refine ⟨ship', h1, ?_, h3⟩
            have hne2 : ¬ (be.ship = shipE) := fun hcc => heq hcc.symm
            have hcnt : List.countP
                (fun ev => decide (struckShip blocks ev = some shipE))
                (ContactEvent.started e1 e2 :: rest)
                = List.countP
                  (fun ev => decide (struckShip blocks ev = some shipE)) rest := by
              simp [List.countP_cons, hstruck, hne2]
            rw [h2, hcnt]
        · intro f1 f2 hmem
          rcases List.mem_cons.mp hmem with heq | hr
          · cases heq
            constructor
            · intro hcontra
              simp [ha1] at hcontra
            · intro _
              exact hmono _ (tbr_add_mem_self s.tbr _)
          · exact hqueue f1 f2 hr
        · intro x hx
          exact hmono x (tbr_add_mem_mono hx)
      · obtain ⟨be, hb2⟩ := Option.isSome_iff_exists.mp hb2s
        have hstruck := @struckShip_started_right blocks e1 e2 be hb1 hb2
        have hshE : (s.ships be.ship).isSome = true :=
          hships _ (List.mem_cons_self _ _) be.ship hstruck
        obtain ⟨ship0, hs0⟩ := Option.isSome_iff_exists.mp hshE
        have hstep := processContactEvent_right hb1 hb2 ha1 ha2 hm1 hm2 hs0
        set s1 : PhysState := ⟨s.tbr.add e1,
          upd s.ships be.ship (some { ship0 with heat := ship0.heat + 20 })⟩ with hs1def
        have hshipsr : ∀ ev2 ∈ rest, ∀ se, struckShip blocks ev2 = some se →
            (s1.ships se).isSome = true := by
          intro ev2 he se hse
          exact upd_isSome_mono _ _ _ _
            (hships ev2 (List.mem_cons_of_mem _ he) se hse)
        obtain ⟨s', hrun, hheat, hqueue, hmono⟩ := ih s1 hevr hshipsr
        refine ⟨s', ?_, ?_, ?_, ?_⟩
        · simp only [processContacts, hstep]
          exact hrun
        · intro shipE ship hs
          by_cases heq : shipE = be.ship
          · have hs' : s.ships be.ship = some ship := by rw [← heq]; exact hs
            have hshipeq : ship0 = ship := by
              rw [hs0] at hs'
              injection hs'
            have hs1ship : s1.ships shipE
                = some { ship0 with heat := ship0.heat + 20 } := by
              simp [hs1def, upd, heq]
            obtain ⟨ship', h1, h2, h3⟩ := hheat shipE _ hs1ship
            refine ⟨ship', h1, ?_, by rw [h3, ← hshipeq]⟩
            have hcnt : List.countP
                (fun ev => decide (struckShip blocks ev = some shipE))
                (ContactEvent.started e1 e2 :: rest)
                = List.countP
                  (fun ev => decide (struckShip blocks ev = some shipE)) rest
                  + 1 := by
              simp [List.countP_cons, hstruck, heq]
            rw [h2, ← hshipeq, hcnt]
            push_cast
            ring
          · have hs1ship : s1.ships shipE = s.ships shipE := by
              simp only [hs1def, upd]
              rw [if_neg heq]
            rw [← hs1ship] at hs
            obtain ⟨ship', h1, h2, h3⟩ := hheat shipE ship hs
            refine ⟨ship', h1, ?_, h3⟩
            have hne2 : ¬ (be.ship = shipE) := fun hcc => heq hcc.symm
            have hcnt : List.countP
                (fun ev => decide (struckShip blocks ev = some shipE))
                (ContactEvent.started e1 e2 :: rest)
                = List.countP
                  (fun ev => decide (struckShip blocks ev = some shipE)) rest := by
              simp [List.countP_cons, hstruck, hne2]
            rw [h2, hcnt]
        · intro f1 f2 hmem
          rcases List.mem_cons.mp hmem with heq | hr
          · cases heq
            constructor
            · intro _
              exact hmono _ (tbr_add_mem_self s.tbr _)
            · intro hcontra
              simp [ha2] at hcontra
          · exact hqueue f1 f2 hr
        · intro x hx
          exact hmono x (tbr_add_mem_mono hx)

/-- Witness for C4 at a concrete input: one wall block of one ship struck by
one asteroid in one tick — the theorem instantiates to that scene (heat goes
up by exactly `20 * 1` and the asteroid is queued). -/
theorem physics_block_asteroid_contacts_witness :
    ∃ s', processContacts
        (fun e => if e = (⟨1, 0⟩ : Entity)
          then some (⟨⟨0, 0⟩, 0, ((0 : ℤ), (0 : ℤ))⟩ : BlockEntity) else none)
        (fun e => if e = (⟨2, 0⟩ : Entity) then some GameItem.iron else none)
        (fun _ => none)
        ⟨ToBeRemoved.empty,
          fun e => if e = (⟨0, 0⟩ : Entity)
            then some ⟨0, fun _ => none⟩ else none⟩
        [ContactEvent.started ⟨1, 0⟩ ⟨2, 0⟩] = some s' ∧
      (∀ shipE ship,
        (fun e => if e = (⟨0, 0⟩ : Entity)
          then some (⟨0, fun _ => none⟩ : Ship) else none) shipE = some ship →
        ∃ ship', s'.ships shipE = some ship' ∧
          ship'.heat = ship.heat + 20 * (([ContactEvent.started ⟨1, 0⟩ ⟨2, 0⟩].countP
            (fun ev => decide (struckShip
              (fun e => if e = (⟨1, 0⟩ : Entity)
                then some (⟨⟨0, 0⟩, 0, ((0 : ℤ), (0 : ℤ))⟩ : BlockEntity) else none)
              ev = some shipE))) : ℕ) ∧
          ship'.tiles = ship.tiles) ∧
      (∀ e1 e2, ContactEvent.started e1 e2 ∈
          [ContactEvent.started (⟨1, 0⟩ : Entity) ⟨2, 0⟩] →
        (((fun e => if e = (⟨2, 0⟩ : Entity) then some GameItem.iron else none)
            e1).isSome = true → e1 ∈ s'.tbr.vec) ∧
        (((fun e => if e = (⟨2, 0⟩ : Entity) then some GameItem.iron else none)
            e2).isSome = true → e2 ∈ s'.tbr.vec)) ∧
      (∀ x ∈ (ToBeRemoved.empty).vec, x ∈ s'.tbr.vec) := by
  refine physics_block_asteroid_contacts _ _ _ _ _ ?_ ?_
  · intro ev hmem
    simp only [List.mem_singleton] at hmem
    subst hmem
    unfold BlockAsteroidEvent
    refine ⟨rfl, rfl, Or.inl ?_⟩
    refine ⟨by decide, by decide, by decide, by decide⟩
  · intro ev hmem se hse
    simp only [List.mem_singleton] at hmem
    subst hmem
    have hv : struckShip
        (fun e => if e = (⟨1, 0⟩ : Entity)
          then some (⟨⟨0, 0⟩, 0, ((0 : ℤ), (0 : ℤ))⟩ : BlockEntity) else none)
        (ContactEvent.started ⟨1, 0⟩ ⟨2, 0⟩) = some ⟨0, 0⟩ := by decide
    rw [hv] at hse
    injection hse with hse'
    subst hse'
    decide

lemma rayStep_not_admissible {toi : ToiFn} {ray : Ray} {groups : CollisionGroups}
    {p : ℕ × WorldObj} (h : ∀ t, ¬ AdmissibleHit toi ray groups p t)
    (acc : Option (ℚ × Entity)) : rayStep toi ray groups acc p = acc := by
  unfold rayStep
  by_cases hg : groups.canInteract p.2.groups = true
  · rw [if_pos hg]
    rcases ht : toi p.2.shape p.2.position ray.origin ray.dir with _ | t
    · simp only [ht]
    · simp only [ht]
      by_cases hc : 0 ≤ t ∧ t * t * ray.dir.normSq ≤ 500 * 500
      · exact absurd ⟨hg, ht, hc.1, hc.2⟩ (h t)
      · rw [if_neg hc]
  · rw [if_neg hg]

lemma rayStep_admissible {toi : ToiFn} {ray : Ray} {groups : CollisionGroups}
    {p : ℕ × WorldObj} {t0 : ℚ} (h : AdmissibleHit toi ray groups p t0)
    (acc : Option (ℚ × Entity)) :
    rayStep toi ray groups acc p
      = match acc with
        | none => some (t0, p.2.entity)
        | some (tb, eb) =>
          if t0 < tb then some (t0, p.2.entity) else some (tb, eb) := by
  obtain ⟨hg, ht, h0, hle⟩ := h
  unfold rayStep
  simp only [hg, if_true, ht]
  rw [if_pos ⟨h0, hle⟩]

lemma toi_functional {toi : ToiFn} {ray : Ray} {groups : CollisionGroups}
    {p : ℕ × WorldObj} {t t' : ℚ} (h : AdmissibleHit toi ray groups p t)
    (h' : AdmissibleHit toi ray groups p t') : t = t' := by
  have := h.2.1
  rw [h'.2.1] at this
  injection this with h''
  exact h''.symm

lemma rayFold_spec (toi : ToiFn) (ray : Ray) (groups : CollisionGroups) :
    ∀ (l : List (ℕ × WorldObj)) (acc : Option (ℚ × Entity)),
      (l.foldl (rayStep toi ray groups) acc = none →
        acc = none ∧ ∀ p ∈ l, ∀ t, ¬ AdmissibleHit toi ray groups p t) ∧
      (∀ t e, l.foldl (rayStep toi ray groups) acc = some (t, e) →
        ((acc = some (t, e) ∨
            ∃ p ∈ l, p.2.entity = e ∧ AdmissibleHit toi ray groups p t) ∧
         (∀ p ∈ l, ∀ t', AdmissibleHit toi ray groups p t' → t ≤ t') ∧
         (∀ ta ea, acc = some (ta, ea) → t ≤ ta))) := by
  intro l
  induction l with
  | nil =>
    intro acc
    constructor
    · intro h
      exact ⟨h, by simp⟩
    · intro t e h
      refine ⟨Or.inl h, by simp, ?_⟩
      intro ta ea hacc
      rw [hacc] at h
      injection h with h'
      rw [(Prod.mk.injEq _ _ _ _).mp h'.symm |>.1]
  | cons p l ih =>
    intro acc
    by_cases hadm : ∃ t0, AdmissibleHit toi ray groups p t0
    · obtain ⟨t0, ht0⟩ := hadm
      cases acc with
      | none =>
        have hstep : rayStep toi ray groups none p = some (t0, p.2.entity) :=
          rayStep_admissible ht0 none
        constructor
        · intro h
          simp only [List.foldl_cons, hstep] at h
          obtain ⟨hcontra, _⟩ := (ih (some (t0, p.2.entity))).1 h
          exact Option.noConfusion hcontra
        · intro t e h
          simp only [List.foldl_cons, hstep] at h
          obtain ⟨hor, hmin, hacc⟩ := (ih (some (t0, p.2.entity))).2 t e h
          have htt0 : t ≤ t0 := hacc t0 p.2.entity rfl
          refine ⟨?_, ?_, ?_⟩
          · rcases hor with heq | ⟨q, hq, hqe, hqa⟩
            · injection heq with heq'
              have h1 := (Prod.mk.injEq _ _ _ _).mp heq'
              exact Or.inr ⟨p, List.mem_cons_self _ _, h1.2, h1.1 ▸ ht0⟩
            · exact Or.inr ⟨q, List.mem_cons_of_mem _ hq, hqe, hqa⟩
          · intro q hq t' hq'
            rcases List.mem_cons.mp hq with rfl | hql
            · rw [← toi_functional ht0 hq']
              exact htt0
            · exact hmin q hql t' hq'
          · intro ta ea hacc'
            exact Option.noConfusion hacc'
      | some pair =>
        obtain ⟨tb, eb⟩ := pair
        by_cases hlt : t0 < tb
        · have hstep : rayStep toi ray groups (some (tb, eb)) p
              = some (t0, p.2.entity) := by
            rw [rayStep_admissible ht0 (some (tb, eb))]
            simp [hlt]
          constructor
          · intro h
            simp only [List.foldl_cons, hstep] at h
            obtain ⟨hcontra, _⟩ := (ih (some (t0, p.2.entity))).1 h
            exact Option.noConfusion hcontra
          · intro t e h
            simp only [List.foldl_cons, hstep] at h
            obtain ⟨hor, hmin, hacc⟩ := (ih (some (t0, p.2.entity))).2 t e h
            have htt0 : t ≤ t0 := hacc t0 p.2.entity rfl
            refine ⟨?_, ?_, ?_⟩
            · rcases hor with heq | ⟨q, hq, hqe, hqa⟩
              · injection heq with heq'
                have h1 := (Prod.mk.injEq _ _ _ _).mp heq'
                exact Or.inr ⟨p, List.mem_cons_self _ _, h1.2, h1.1 ▸ ht0⟩
              · exact Or.inr ⟨q, List.mem_cons_of_mem _ hq, hqe, hqa⟩
            · intro q hq t' hq'
              rcases List.mem_cons.mp hq with rfl | hql
              · rw [← toi_functional ht0 hq']
                exact htt0
              · exact hmin q hql t' hq'
            · intro ta ea hacc'
              injection hacc' with h'
              have h1 := (Prod.mk.injEq _ _ _ _).mp h'
              rw [← h1.1]
              exact le_trans htt0 (le_of_lt hlt)
        · have hstep : rayStep toi ray groups (some (tb, eb)) p
              = some (tb, eb) := by
            rw [rayStep_admissible ht0 (some (tb, eb))]
            simp [hlt]
          have htb : tb ≤ t0 := le_of_not_lt hlt
          constructor
          · intro h
            simp only [List.foldl_cons, hstep] at h
            obtain ⟨hcontra, _⟩ := (ih (some (tb, eb))).1 h
            exact Option.noConfusion hcontra
          · intro t e h
            simp only [List.foldl_cons, hstep] at h
            obtain ⟨hor, hmin, hacc⟩ := (ih (some (tb, eb))).2 t e h
            have httb : t ≤ tb := hacc tb eb rfl
            refine ⟨?_, ?_, ?_⟩
            · rcases hor with heq | ⟨q, hq, hqe, hqa⟩
              · exact Or.inl heq
              · exact Or.inr ⟨q, List.mem_cons_of_mem _ hq, hqe, hqa⟩
            · intro q hq t' hq'
              rcases List.mem_cons.mp hq with rfl | hql
              · rw [← toi_functional ht0 hq']
                exact le_trans httb htb
              · exact hmin q hql t' hq'
            · intro ta ea hacc'
              injection hacc' with h'
              have h1 := (Prod.mk.injEq _ _ _ _).mp h'
              rw [← h1.1]
              exact httb
    · have hno : ∀ t, ¬ AdmissibleHit toi ray groups p t := by
        intro t ht
        exact hadm ⟨t, ht⟩
      have hstep : rayStep toi ray groups acc p = acc :=
        rayStep_not_admissible hno acc
      constructor
      · intro h
        simp only [List.foldl_cons, hstep] at h
        obtain ⟨hacc, hrest⟩ := (ih acc).1 h
        refine ⟨hacc, ?_⟩
        intro q hq t
        rcases List.mem_cons.mp hq with rfl | hql
        · exact hno t
        · exact hrest q hql t
      · intro t e h
        simp only [List.foldl_cons, hstep] at h
        obtain ⟨hor, hmin, hacc⟩ := (ih acc).2 t e h
        refine ⟨?_, ?_, hacc⟩
        · rcases hor with heq | ⟨q, hq, hqe, hqa⟩
          · exact Or.inl heq
          · exact Or.inr ⟨q, List.mem_cons_of_mem _ hq, hqe, hqa⟩
        · intro q hq t' hq'
          rcases List.mem_cons.mp hq with rfl | hql
          · exact absurd hq' (hno t')
          · exact hmin q hql t' hq'

/-- C7 (amended): `raycast(whitelist, near, far)` returns `Some e` exactly for
the registered object with the LEAST time of impact among those whose groups
pass the whitelist filter (all groups when the whitelist is empty) and whose
hit lies on the ray from `near` toward `far` within the fixed maximum
distance 500 — not within the `near`→`far` segment — and `None` when no
registered object has such a hit. -/
theorem raycast_first_hit_within_maxtoi (toi : ToiFn) (w : CollisionWorldM)
    (whitelist : List ℕ) (near far : Vec3) :
    (∀ e, RaycastWorld.raycast toi w whitelist near far = some e →
      ∃ p t, p ∈ w.objs ∧ p.2.entity = e ∧
        AdmissibleHit toi ⟨near, far.sub near⟩ (queryGroups whitelist) p t ∧
        (∀ q ∈ w.objs, ∀ t', AdmissibleHit toi ⟨near, far.sub near⟩
          (queryGroups whitelist) q t' → t ≤ t')) ∧
    (RaycastWorld.raycast toi w whitelist near far = none →
      ∀ q ∈ w.objs, ∀ t', ¬ AdmissibleHit toi ⟨near, far.sub near⟩
        (queryGroups whitelist) q t') := by
  constructor
  · intro e he
    simp only [RaycastWorld.raycast, firstInterferenceWithRay] at he
    obtain ⟨⟨t, e'⟩, hfi, he'⟩ := Option.map_eq_some'.mp he
    have he2 : e' = e := he'
    subst he2
    obtain ⟨hor, hmin, _⟩ :=
      (rayFold_spec toi ⟨near, far.sub near⟩ (queryGroups whitelist) w.objs
        none).2 t e' hfi
    rcases hor with hcontra | ⟨p, hp, hpe, hpa⟩
    · exact Option.noConfusion hcontra
    · exact ⟨p, t, hp, hpe, hpa, hmin⟩
  · intro hnone q hq t' hq'
    simp only [RaycastWorld.raycast, firstInterferenceWithRay] at hnone
    rw [Option.map_eq_none'] at hnone
    obtain ⟨_, hno⟩ :=
      (rayFold_spec toi ⟨near, far.sub near⟩ (queryGroups whitelist) w.objs
        none).1 hnone
    exact hno q hq t' hq'

lemma c7_dir_eval : Vec3.sub ⟨0, 0, 1⟩ ⟨0, 0, 0⟩ = (⟨0, 0, 1⟩ : Vec3) := by
  simp [Vec3.sub]

lemma c7_toi_eval :
    modelToi (.cuboidHalf ⟨1, 1, 1⟩) ⟨⟨0, 0, 10⟩, Quat.identity⟩ ⟨0, 0, 0⟩
      ⟨0, 0, 1⟩ = some 9 := by
  norm_num [modelToi, cuboidToi, min_def, max_def]

lemma c7_groups_eval :
    CollisionGroups.canInteract (queryGroups [])
      (⟨[1], [0], []⟩ : CollisionGroups) = true := by
  decide

lemma c7_admissible : AdmissibleHit modelToi
    ⟨⟨0, 0, 0⟩, Vec3.sub ⟨0, 0, 1⟩ ⟨0, 0, 0⟩⟩ (queryGroups [])
    ((0 : ℕ), ⟨⟨⟨0, 0, 10⟩, Quat.identity⟩, .cuboidHalf ⟨1, 1, 1⟩,
      ⟨[1], [0], []⟩, ⟨42, 0⟩⟩) 9 := by
  refine ⟨c7_groups_eval, ?_, by norm_num, ?_⟩
  · show modelToi (.cuboidHalf ⟨1, 1, 1⟩) ⟨⟨0, 0, 10⟩, Quat.identity⟩ ⟨0, 0, 0⟩
      (Vec3.sub ⟨0, 0, 1⟩ ⟨0, 0, 0⟩) = some 9
    rw [c7_dir_eval]
    exact c7_toi_eval
  · show (9 : ℚ) * 9 * (Vec3.sub ⟨0, 0, 1⟩ ⟨0, 0, 0⟩).normSq ≤ 500 * 500
    rw [c7_dir_eval]
    norm_num [Vec3.normSq]

lemma c7_raycast_eval :
    RaycastWorld.raycast modelToi demoRayWorld [] ⟨0, 0, 0⟩ ⟨0, 0, 1⟩
      = some ⟨42, 0⟩ := by
  have hstep := rayStep_admissible c7_admissible none
  simp only [RaycastWorld.raycast, firstInterferenceWithRay, demoRayWorld,
    List.foldl_cons, List.foldl_nil] at hstep ⊢
  rw [hstep]
  rfl

lemma c7_seg_eval :
    raycastSegmentSpec modelToi demoRayWorld [] ⟨0, 0, 0⟩ ⟨0, 0, 1⟩ = none := by
  have htoi : modelToi (.cuboidHalf ⟨1, 1, 1⟩) ⟨⟨0, 0, 10⟩, Quat.identity⟩
      ⟨0, 0, 0⟩ (Vec3.sub ⟨0, 0, 1⟩ ⟨0, 0, 0⟩) = some 9 := by
    rw [c7_dir_eval]
    exact c7_toi_eval
  simp only [raycastSegmentSpec, demoRayWorld, List.foldl_cons, List.foldl_nil,
    htoi, c7_groups_eval, if_true]
  norm_num

/-- Witness for C7's amended theorem at a concrete input: the unit-direction
ray down the z-axis from the origin hits the registered cuboid (spanning
`z ∈ [9, 11]`), and the theorem yields the admissible minimal hit behind the
returned entity. -/
theorem raycast_first_hit_within_maxtoi_witness :
    ∃ p t, p ∈ demoRayWorld.objs ∧
      p.2.entity = (⟨42, 0⟩ : Entity) ∧
      AdmissibleHit modelToi ⟨⟨0, 0, 0⟩, Vec3.sub ⟨0, 0, 1⟩ ⟨0, 0, 0⟩⟩
        (queryGroups []) p t ∧
      (∀ q ∈ demoRayWorld.objs, ∀ t',
        AdmissibleHit modelToi ⟨⟨0, 0, 0⟩, Vec3.sub ⟨0, 0, 1⟩ ⟨0, 0, 0⟩⟩
          (queryGroups []) q t' → t ≤ t') :=
  (raycast_first_hit_within_maxtoi modelToi demoRayWorld
    [] ⟨0, 0, 0⟩ ⟨0, 0, 1⟩).1 ⟨42, 0⟩ c7_raycast_eval

/-- C7 (counterexample to the claim as stated): with one registered
axis-aligned cuboid spanning `z ∈ [9, 11]` on the z-axis, the ray query from
`(0,0,0)` toward `(0,0,1)` returns `Some` of that entity even though no
entity is hit along the SEGMENT between the two points (the hit parameter is
9, far beyond the segment's range): the source's
`first_interference_with_ray` call uses the fixed `toi = 500.0`, not the
segment length. -/
theorem raycast_exceeds_segment_counterexample :
    RaycastWorld.raycast modelToi demoRayWorld [] ⟨0, 0, 0⟩ ⟨0, 0, 1⟩
      = some ⟨42, 0⟩ ∧
    raycastSegmentSpec modelToi demoRayWorld [] ⟨0, 0, 0⟩ ⟨0, 0, 1⟩ = none ∧
    modelToi (.cuboidHalf ⟨1, 1, 1⟩) ⟨⟨0, 0, 10⟩, Quat.identity⟩ ⟨0, 0, 0⟩
      ⟨0, 0, 1⟩ = some 9 :=
  ⟨c7_raycast_eval, c7_seg_eval, c7_toi_eval⟩

lemma find_append_of_some {objs rest : List (ℕ × WorldObj)} {h : ℕ}
    {q : ℕ × WorldObj} (hf : objs.find? (fun p => p.1 = h) = some q) :
    (objs ++ rest).find? (fun p => p.1 = h) = some q := by
  induction objs with
  | nil => exact Option.noConfusion hf
  | cons a l ih =>
    rw [List.cons_append]
    by_cases hp : a.1 = h
    · rw [List.find?_cons_of_pos _ (by simpa using hp)] at hf ⊢
      exact hf
    · rw [List.find?_cons_of_neg _ (by simpa using hp)] at hf ⊢
      exact ih hf

lemma find_append_fresh {objs : List (ℕ × WorldObj)} {n : ℕ} {o : WorldObj}
    (hfresh : ∀ p ∈ objs, p.1 < n) :
    (objs ++ [(n, o)]).find? (fun p => p.1 = n) = some (n, o) := by
  induction objs with
  | nil => simp [List.find?]
  | cons a l ih =>
    have ha : a.1 < n := hfresh a (List.mem_cons_self _ _)
    rw [List.cons_append, List.find?_cons_of_neg _ (by simp; omega)]
    exact ih (fun p hp => hfresh p (List.mem_cons_of_mem _ hp))

lemma find_map_set_self {l : List (ℕ × WorldObj)} {h : ℕ} {o : WorldObj}
    {q : ℕ × WorldObj} (hq : l.find? (fun p => p.1 = h) = some q) :
    (l.map (fun p => if p.1 = h then (h, o) else p)).find? (fun p => p.1 = h)
      = some (h, o) := by
  induction l with
  | nil => exact Option.noConfusion hq
  | cons a t ih =>
    by_cases hp : a.1 = h
    · rw [List.map_cons, if_pos hp, List.find?_cons_of_pos _ (by simp)]
    · rw [List.find?_cons_of_neg _ (by simpa using hp)] at hq
      rw [List.map_cons, if_neg hp, List.find?_cons_of_neg _ (by simpa using hp)]
      exact ih hq

lemma find_map_set_other {l : List (ℕ × WorldObj)} {h h' : ℕ} {o : WorldObj}
    (hne : h' ≠ h) :
    (l.map (fun p => if p.1 = h then (h, o) else p)).find? (fun p => p.1 = h')
      = l.find? (fun p => p.1 = h') := by
  induction l with
  | nil => rfl
  | cons a t ih =>
    by_cases hp : a.1 = h
    · rw [List.map_cons, if_pos hp, List.find?_cons_of_neg _ (by simp; omega),
        List.find?_cons_of_neg _ (by simp [hp]; omega)]
      exact ih
    · by_cases hp' : a.1 = h'
      · rw [List.map_cons, if_neg hp, List.find?_cons_of_pos _ (by simpa using hp'),
          List.find?_cons_of_pos _ (by simpa using hp')]
      · rw [List.map_cons, if_neg hp, List.find?_cons_of_neg _ (by simpa using hp'),
          List.find?_cons_of_neg _ (by simpa using hp')]
        exact ih

lemma find_filter_remove_self {l : List (ℕ × WorldObj)} {h : ℕ} :
    (l.filter (fun p => p.1 ≠ h)).find? (fun p => p.1 = h) = none := by
  induction l with
  | nil => rfl
  | cons a t ih =>
    by_cases hp : a.1 = h
    · rw [List.filter_cons_of_neg (by simp [hp])]
      exact ih
    · rw [List.filter_cons_of_pos (by simpa using hp),
        List.find?_cons_of_neg _ (by simpa using hp)]
      exact ih

lemma find_filter_remove_other {l : List (ℕ × WorldObj)} {h h' : ℕ}
    (hne : h' ≠ h) :
    (l.filter (fun p => p.1 ≠ h)).find? (fun p => p.1 = h')
      = l.find? (fun p => p.1 = h') := by
  induction l with
  | nil => rfl
  | cons a t ih =>
    by_cases hp : a.1 = h
    · rw [List.filter_cons_of_neg (by simp [hp]),
        List.find?_cons_of_neg _ (by simp [hp]; omega)]
      exact ih
    · by_cases hp' : a.1 = h'
      · rw [List.filter_cons_of_pos (by simpa using hp),
          List.find?_cons_of_pos _ (by simpa using hp'),
          List.find?_cons_of_pos _ (by simpa using hp')]
      · rw [List.filter_cons_of_pos (by simpa using hp),
          List.find?_cons_of_neg _ (by simpa using hp'),
          List.find?_cons_of_neg _ (by simpa using hp')]
        exact ih

lemma cw_get_add_self {w : CollisionWorldM} {pos : Iso} {shape : ShapeHandle}
    {groups : CollisionGroups} {e : Entity}
    (hfresh : ∀ p ∈ w.objs, p.1 < w.nextHandle) :
    (w.add pos shape groups e).2.get (w.add pos shape groups e).1
      = some ⟨pos, shape, groups, e⟩ := by
  unfold CollisionWorldM.add CollisionWorldM.get
  rw [find_append_fresh hfresh]
  rfl

lemma cw_get_add_preserve {w : CollisionWorldM} {pos : Iso} {shape : ShapeHandle}
    {groups : CollisionGroups} {e : Entity} {h : ℕ} {obj : WorldObj}
    (hget : w.get h = some obj) :
    (w.add pos shape groups e).2.get h = some obj := by
  unfold CollisionWorldM.get at hget ⊢
  unfold CollisionWorldM.add
  obtain ⟨q, hq, hq2⟩ := Option.map_eq_some'.mp hget
  rw [find_append_of_some hq]
  simp [hq2]

lemma cw_get_set_self {w : CollisionWorldM} {h : ℕ} {o obj : WorldObj}
    (hget : w.get h = some obj) : (w.set h o).get h = some o := by
  unfold CollisionWorldM.get at hget
  obtain ⟨q, hq, _⟩ := Option.map_eq_some'.mp hget
  unfold CollisionWorldM.get CollisionWorldM.set
  rw [find_map_set_self hq]
  rfl

lemma cw_get_set_other {w : CollisionWorldM} {h h' : ℕ} {o : WorldObj}
    (hne : h' ≠ h) : (w.set h o).get h' = w.get h' := by
  unfold CollisionWorldM.get CollisionWorldM.set
  rw [find_map_set_other hne]

lemma cw_get_remove_self {w : CollisionWorldM} {h : ℕ} :
    (w.removeHandle h).get h = none := by
  unfold CollisionWorldM.get CollisionWorldM.removeHandle
  rw [find_filter_remove_self]
  rfl

lemma cw_get_remove_other {w : CollisionWorldM} {h h' : ℕ} (hne : h' ≠ h) :
    (w.removeHandle h).get h' = w.get h' := by
  unfold CollisionWorldM.get CollisionWorldM.removeHandle
  rw [find_filter_remove_other hne]

lemma cw_set_fresh {w : CollisionWorldM} {h : ℕ} {o : WorldObj}
    (hfresh : ∀ p ∈ w.objs, p.1 < w.nextHandle) :
    ∀ p ∈ (w.set h o).objs, p.1 < (w.set h o).nextHandle := by
  intro p hp
  unfold CollisionWorldM.set at hp
  simp only at hp
  obtain ⟨q, hq, hfq⟩ := List.mem_map.mp hp
  have := hfresh q hq
  by_cases hcase : q.1 = h
  · rw [if_pos hcase] at hfq
    rw [← hfq]
    simpa [← hcase] using this
  · rw [if_neg hcase] at hfq
    rw [← hfq]
    exact this

lemma cw_remove_fresh {w : CollisionWorldM} {h : ℕ}
    (hfresh : ∀ p ∈ w.objs, p.1 < w.nextHandle) :
    ∀ p ∈ (w.removeHandle h).objs, p.1 < (w.removeHandle h).nextHandle := by
  intro p hp
  unfold CollisionWorldM.removeHandle at hp
  exact hfresh p (List.mem_of_mem_filter hp)

lemma cw_add_fresh {w : CollisionWorldM} {pos : Iso} {shape : ShapeHandle}
    {groups : CollisionGroups} {e : Entity}
    (hfresh : ∀ p ∈ w.objs, p.1 < w.nextHandle) :
    ∀ p ∈ (w.add pos shape groups e).2.objs,
      p.1 < (w.add pos shape groups e).2.nextHandle := by
  intro p hp
  unfold CollisionWorldM.add at hp ⊢
  simp only at hp ⊢
  rcases List.mem_append.mp hp with hold | hnew
  · exact Nat.lt_succ_of_lt (hfresh p hold)
  · rw [List.mem_singleton.mp hnew]
    exact Nat.lt_succ_self _

lemma upd_same {α β : Type} [DecidableEq α] (f : α → Option β) (a : α)
    (b : Option β) : upd f a b a = b := by
  unfold upd
  rw [if_pos rfl]

lemma upd_other {α β : Type} [DecidableEq α] (f : α → Option β) (a x : α)
    (b : Option β) (h : x ≠ a) : upd f a b x = f x := by
  unfold upd
  rw [if_neg h]

lemma upd_upd_same {α β : Type} [DecidableEq α] (f : α → Option β) (a : α)
    (b b' : Option β) : upd (upd f a b) a b' = upd f a b' := by
  funext x
  unfold upd
  split
  · rfl
  · rfl

lemma raycastProcessOne_skip {hm : HitboxMeshes}
    {transforms : Entity → Option Transform} {s : RaycastState} {e : Entity}
    (h : transforms e = none ∨ s.colliders e = none) :
    raycastProcessOne hm transforms s e = some s := by
  rcases h with h1 | h2
  · simp [raycastProcessOne, h1]
  · rcases ht : transforms e with _ | t
    · simp [raycastProcessOne, ht]
    · simp [raycastProcessOne, ht, h2]

lemma raycastProcessOne_update {hm : HitboxMeshes}
    {transforms : Entity → Option Transform} {s : RaycastState} {e : Entity}
    {t : Transform} {c : Collider} {id model : ℕ} {obj : WorldObj}
    (ht : transforms e = some t) (hc : s.colliders e = some c)
    (hid : c.raycastId = some id) (hmodel : c.modelId = some model)
    (hobj : s.world.get id = some obj) :
    raycastProcessOne hm transforms s e = some
      ⟨s.world.set id
          ⟨toNalgebraPos t c.hitbox.offset, c.hitbox.asShapeHandle,
            obj.groups, obj.entity⟩,
        s.colliders,
        s.meshes.updateModel (c.hitbox.toHitboxMesh hm) model
          (c.hitbox.toHitboxModel t)⟩ := by
  simp [raycastProcessOne, ht, hc, hid, hmodel, hobj]

lemma raycastProcessOne_panic {hm : HitboxMeshes}
    {transforms : Entity → Option Transform} {s : RaycastState} {e : Entity}
    {t : Transform} {c : Collider} {id model : ℕ}
    (ht : transforms e = some t) (hc : s.colliders e = some c)
    (hid : c.raycastId = some id) (hmodel : c.modelId = some model)
    (hobj : s.world.get id = none) :
    raycastProcessOne hm transforms s e = none := by
  simp [raycastProcessOne, ht, hc, hid, hmodel, hobj]

lemma raycastProcessOne_insert {hm : HitboxMeshes}
    {transforms : Entity → Option Transform} {s : RaycastState} {e : Entity}
    {t : Transform} {c : Collider}
    (ht : transforms e = some t) (hc : s.colliders e = some c)
    (hni : c.raycastId = none ∨ c.modelId = none) :
    raycastProcessOne hm transforms s e = some
      ⟨(s.world.add (toNalgebraPos t c.hitbox.offset) c.hitbox.asShapeHandle
          ((CollisionGroups.new.withMembership [c.group]).withWhitelist
            [Collider.RAYCAST]) e).2,
        upd s.colliders e (some ⟨c.hitbox, c.group, c.whitelist,
          some s.world.nextHandle, some s.meshes.nextModel⟩),
        (s.meshes.newModel (c.hitbox.toHitboxMesh hm)
          (c.hitbox.toHitboxModel t)).2⟩ := by
  rcases hrid : c.raycastId with _ | id <;> rcases hmid : c.modelId with _ | model
  · simp [raycastProcessOne, ht, hc, hrid, hmid, CollisionWorldM.add,
      MeshManager.newModel]
  · simp [raycastProcessOne, ht, hc, hrid, hmid, CollisionWorldM.add,
      MeshManager.newModel]
  · simp [raycastProcessOne, ht, hc, hrid, hmid, CollisionWorldM.add,
      MeshManager.newModel]
  · rcases hni with hcontra | hcontra
    · rw [hrid] at hcontra
      exact Option.noConfusion hcontra
    · rw [hmid] at hcontra
      exact Option.noConfusion hcontra

lemma raycastProcessOne_WF {hm : HitboxMeshes}
    {transforms : Entity → Option Transform} {s : RaycastState} {e : Entity}
    {s' : RaycastState} (hwf : RaycastWF s)
    (h : raycastProcessOne hm transforms s e = some s') : RaycastWF s' := by
  rcases ht : transforms e with _ | t
  · rw [raycastProcessOne_skip (Or.inl ht)] at h
    injection h with h
    rw [← h]
    exact hwf
  · rcases hc : s.colliders e with _ | c
    · rw [raycastProcessOne_skip (Or.inr hc)] at h
      injection h with h
      rw [← h]
      exact hwf
    · by_cases hboth : c.raycastId.isSome ∧ c.modelId.isSome
      · obtain ⟨id, hid⟩ := Option.isSome_iff_exists.mp hboth.1
        obtain ⟨model, hmodel⟩ := Option.isSome_iff_exists.mp hboth.2
        rcases hobj : s.world.get id with _ | obj
        · rw [raycastProcessOne_panic ht hc hid hmodel hobj] at h
          exact Option.noConfusion h
        · rw [raycastProcessOne_update ht hc hid hmodel hobj] at h
          injection h with h
          rw [← h]
          constructor
          · exact cw_set_fresh hwf.1
          · intro e' c' hc'
            dsimp only at hc' ⊢
            rcases hwf.2 e' c' hc' with ⟨id', m', hr', hm', obj', hobj', hent'⟩ |
              hnone
            · by_cases hidq : id' = id
              · subst hidq
                have hoe : obj' = obj := by
                  rw [hobj'] at hobj
                  injection hobj
                refine Or.inl ⟨id', m', hr', hm',
                  ⟨toNalgebraPos t c.hitbox.offset, c.hitbox.asShapeHandle,
                    obj.groups, obj.entity⟩,
                  cw_get_set_self hobj', ?_⟩
                show obj.entity = e'
                rw [← hoe]
                exact hent'
              · exact Or.inl ⟨id', m', hr', hm', obj',
                  by rw [cw_get_set_other hidq]; exact hobj', hent'⟩
            · exact Or.inr hnone
      · have hni : c.raycastId = none ∨ c.modelId = none := by
          rcases hr : c.raycastId with _ | id
          · exact Or.inl rfl
          · rcases hm2 : c.modelId with _ | model
            · exact Or.inr rfl
            · exact absurd ⟨by rw [hr]; rfl, by rw [hm2]; rfl⟩ hboth
        rw [raycastProcessOne_insert ht hc hni] at h
        injection h with h
        rw [← h]
        constructor
        · exact cw_add_fresh hwf.1
        · intro e' c' hc'
          dsimp only at hc' ⊢
          by_cases heq : e' = e
          · subst heq
            rw [upd_same] at hc'
            injection hc' with hc'
            refine Or.inl ⟨s.world.nextHandle, s.meshes.nextModel,
              by rw [← hc'], by rw [← hc'], _, cw_get_add_self hwf.1, rfl⟩
          · rw [upd_other _ _ _ _ heq] at hc'
            rcases hwf.2 e' c' hc' with ⟨id', m', hr', hm', obj', hobj', hent'⟩ |
              hnone
            · exact Or.inl ⟨id', m', hr', hm', obj', cw_get_add_preserve hobj',
                hent'⟩
            · exact Or.inr hnone

lemma raycastRun_WF {hm : HitboxMeshes} {transforms : Entity → Option Transform} :
    ∀ (es : List Entity) (s s' : RaycastState), RaycastWF s →
      raycastRun hm transforms s es = some s' → RaycastWF s' := by
  intro es
  induction es with
  | nil =>
    intro s s' hwf h
    injection h with h
    rw [← h]
    exact hwf
  | cons e rest ih =>
    intro s s' hwf h
    cases hstep : raycastProcessOne hm transforms s e with
    | none =>
      simp only [raycastRun, hstep] at h
      exact Option.noConfusion h
    | some s1 =>
      simp only [raycastRun, hstep] at h
      exact ih s1 s' (raycastProcessOne_WF hwf hstep) h

lemma removeRaycastOne_WF {hm : HitboxMeshes} {s : RaycastState} {e : Entity}
    (hwf : RaycastWF s) : RaycastWF (removeRaycastOne hm s e) := by
  rcases hc : s.colliders e with _ | c
  · have heq : removeRaycastOne hm s e = s := by
      simp [removeRaycastOne, hc]
    rw [heq]
    exact hwf
  · rcases hrid : c.raycastId with _ | id <;> rcases hmid : c.modelId with _ | model
    · have heq : removeRaycastOne hm s e
          = ⟨s.world, upd s.colliders e (some c), s.meshes⟩ := by
        simp [removeRaycastOne, hc, hrid, hmid]
      rw [heq]
      constructor
      · exact hwf.1
      · intro e' c' hc'
        dsimp only at hc' ⊢
        by_cases heq' : e' = e
        · subst heq'
          rw [upd_same] at hc'
          injection hc' with hc'
          rw [← hc']
          exact Or.inr ⟨hrid, hmid⟩
        · rw [upd_other _ _ _ _ heq'] at hc'
          exact hwf.2 e' c' hc'
    · rcases hwf.2 e c hc with ⟨id', m', hr', _, _, _, _⟩ | ⟨_, hn⟩
      · rw [hrid] at hr'
        exact Option.noConfusion hr'
      · rw [hmid] at hn
        exact Option.noConfusion hn
    · rcases hwf.2 e c hc with ⟨id', m', _, hm', _, _, _⟩ | ⟨hn, _⟩
      · rw [hmid] at hm'
        exact Option.noConfusion hm'
      · rw [hrid] at hn
        exact Option.noConfusion hn
    · have heq : removeRaycastOne hm s e
          = ⟨s.world.removeHandle id,
              upd s.colliders e
                (some { c with raycastId := none, modelId := none }),
              s.meshes.removeModel (c.hitbox.toHitboxMesh hm) model⟩ := by
        simp [removeRaycastOne, hc, hrid, hmid]
      rw [heq]
      constructor
      · exact cw_remove_fresh hwf.1
      · intro e' c' hc'
        dsimp only at hc' ⊢
        by_cases heq' : e' = e
        · subst heq'
          rw [upd_same] at hc'
          injection hc' with hc'
          rw [← hc']
          exact Or.inr ⟨rfl, rfl⟩
        · rw [upd_other _ _ _ _ heq'] at hc'
          rcases hwf.2 e' c' hc' with ⟨id', m', hr', hm', obj', hobj', hent'⟩ |
            hnone
          · have hidne : id' ≠ id := by
              intro hcc
              subst hcc
              rcases hwf.2 e c hc with ⟨id2, m2, hr2, _, obj2, hobj2, hent2⟩ |
                ⟨hn, _⟩
              · rw [hrid] at hr2
                injection hr2 with hr2
                rw [← hr2] at hobj2
                rw [hobj'] at hobj2
                injection hobj2 with hobj2
                rw [← hobj2] at hent2
                exact heq' (hent'.symm.trans hent2)
              · rw [hrid] at hn
                exact Option.noConfusion hn
            exact Or.inl ⟨id', m', hr', hm', obj',
              by rw [cw_get_remove_other hidne]; exact hobj', hent'⟩
          · exact Or.inr hnone

lemma removeRaycastRun_WF {hm : HitboxMeshes} :
    ∀ (es : List Entity) (s : RaycastState), RaycastWF s →
      RaycastWF (removeRaycastRun hm s es) := by
  intro es
  induction es with
  | nil => intro s hwf; exact hwf
  | cons e rest ih =>
    intro s hwf
    exact ih (removeRaycastOne hm s e) (removeRaycastOne_WF hwf)

lemma removeRaycastOne_of_cleared {hm : HitboxMeshes} {s : RaycastState}
    {e : Entity} {c2 : Collider} (hc : s.colliders e = some c2)
    (h1 : c2.raycastId = none) (h2 : c2.modelId = none) :
    removeRaycastOne hm s e = ⟨s.world, upd s.colliders e (some c2), s.meshes⟩ := by
  simp [removeRaycastOne, hc, h1, h2]

/-- C6: the persistent-registration discipline of the raycast world. (1) One
`RaycastSystem` pass and one removal-cleanup pass preserve well-formedness:
every collider carries either both handles — with the raycast handle
resolving to a world object registered for that same entity — or neither.
(2) A processed entity whose handles are unset receives a first-time
registration with membership `{its group}` and whitelist `{RAYCAST}` at the
entity's current pose and shape, and both handles are assigned. (3) A
processed entity whose handles are set keeps them: the collider store is
untouched and the existing registration's pose and shape are updated in
place, with no new handle allocated. (4) The removal-cleanup pass clears
both handles back to `None` and drops the world registration, and doing it
again changes nothing — the handles are cleared exactly once. -/
theorem raycast_handles_registration_invariant (hm : HitboxMeshes)
    (transforms : Entity → Option Transform) (s : RaycastState) (e : Entity) :
    (∀ es s', RaycastWF s → raycastRun hm transforms s es = some s' →
      RaycastWF s') ∧
    (∀ es, RaycastWF s → RaycastWF (removeRaycastRun hm s es)) ∧
    (∀ t c, RaycastWF s → transforms e = some t → s.colliders e = some c →
      c.raycastId = none → c.modelId = none →
      ∃ s' h m obj, raycastProcessOne hm transforms s e = some s' ∧
        s'.colliders e = some ⟨c.hitbox, c.group, c.whitelist, some h, some m⟩ ∧
        s'.world.get h = some obj ∧
        obj.groups.membership = [c.group] ∧
        obj.groups.whitelist = [Collider.RAYCAST] ∧
        obj.entity = e ∧
        obj.position = toNalgebraPos t c.hitbox.offset ∧
        obj.shape = c.hitbox.asShapeHandle) ∧
    (∀ t c id model obj, transforms e = some t → s.colliders e = some c →
      c.raycastId = some id → c.modelId = some model →
      s.world.get id = some obj →
      ∃ s', raycastProcessOne hm transforms s e = some s' ∧
        s'.colliders = s.colliders ∧
        s'.world.get id = some ⟨toNalgebraPos t c.hitbox.offset,
          c.hitbox.asShapeHandle, obj.groups, obj.entity⟩ ∧
        s'.world.nextHandle = s.world.nextHandle) ∧
    (∀ c, s.colliders e = some c →
      ∃ c2, (removeRaycastOne hm s e).colliders e = some c2 ∧
        c2.raycastId = none ∧ c2.modelId = none ∧
        (∀ id, c.raycastId = some id →
          (removeRaycastOne hm s e).world.get id = none) ∧
        removeRaycastOne hm (removeRaycastOne hm s e) e
          = removeRaycastOne hm s e) := by
  refine ⟨?_, ?_, ?_, ?_, ?_⟩
  · intro es s' hwf h
    exact raycastRun_WF es s s' hwf h
  · intro es hwf
    exact removeRaycastRun_WF es s hwf
  · intro t c hwf ht hc hrid hmid
    refine ⟨_, s.world.nextHandle, s.meshes.nextModel,
      ⟨toNalgebraPos t c.hitbox.offset, c.hitbox.asShapeHandle,
        (CollisionGroups.new.withMembership [c.group]).withWhitelist
          [Collider.RAYCAST], e⟩,
      raycastProcessOne_insert ht hc (Or.inl hrid), ?_, ?_, rfl, rfl, rfl, rfl,
      rfl⟩
    · dsimp only
      exact upd_same _ _ _
    · exact cw_get_add_self hwf.1
  · intro t c id model obj ht hc hid hmodel hobj
    refine ⟨_, raycastProcessOne_update ht hc hid hmodel hobj, rfl, ?_, rfl⟩
    exact cw_get_set_self hobj
  · intro c hc
    rcases hrid : c.raycastId with _ | id <;> rcases hmid : c.modelId with _ | model
    · have heq := @removeRaycastOne_of_cleared hm s e c hc hrid hmid
      refine ⟨c, ?_, hrid, hmid, ?_, ?_⟩
      · rw [heq]
        exact upd_same _ _ _
      · intro id hcontra
        exact Option.noConfusion hcontra
      · rw [heq, removeRaycastOne_of_cleared (upd_same _ _ _) hrid hmid]
        dsimp only
        rw [upd_upd_same]
    · have heq : removeRaycastOne hm s e = ⟨s.world,
          upd s.colliders e (some ⟨c.hitbox, c.group, c.whitelist, none, none⟩),
          s.meshes.removeModel (c.hitbox.toHitboxMesh hm) model⟩ := by
        simp [removeRaycastOne, hc, hrid, hmid]
      refine ⟨⟨c.hitbox, c.group, c.whitelist, none, none⟩, ?_, rfl, rfl, ?_, ?_⟩
      · rw [heq]
        exact upd_same _ _ _
      · intro id hcontra
        exact Option.noConfusion hcontra
      · rw [heq, removeRaycastOne_of_cleared (upd_same _ _ _) rfl rfl]
        dsimp only
        rw [upd_upd_same]
    · have heq : removeRaycastOne hm s e = ⟨s.world.removeHandle id,
          upd s.colliders e (some ⟨c.hitbox, c.group, c.whitelist, none, none⟩),
          s.meshes⟩ := by
        simp [removeRaycastOne, hc, hrid, hmid]
      refine ⟨⟨c.hitbox, c.group, c.whitelist, none, none⟩, ?_, rfl, rfl, ?_, ?_⟩
      · rw [heq]
        exact upd_same _ _ _
      · intro id' hid'
        injection hid' with hid'
        rw [← hid', heq]
        exact cw_get_remove_self
      · rw [heq, removeRaycastOne_of_cleared (upd_same _ _ _) rfl rfl]
        dsimp only
        rw [upd_upd_same]
    · have heq : removeRaycastOne hm s e = ⟨s.world.removeHandle id,
          upd s.colliders e (some ⟨c.hitbox, c.group, c.whitelist, none, none⟩),
          s.meshes.removeModel (c.hitbox.toHitboxMesh hm) model⟩ := by
        simp [removeRaycastOne, hc, hrid, hmid]
      refine ⟨⟨c.hitbox, c.group, c.whitelist, none, none⟩, ?_, rfl, rfl, ?_, ?_⟩
      · rw [heq]
        exact upd_same _ _ _
      · intro id' hid'
        injection hid' with hid'
        rw [← hid', heq]
        exact cw_get_remove_self
      · rw [heq, removeRaycastOne_of_cleared (upd_same _ _ _) rfl rfl]
        dsimp only
        rw [upd_upd_same]

/-- Witness for C6 at a concrete input: a single never-registered collider
with a transform gets its first-time registration — both handles assigned
and a world object with membership `{SHIP}` and whitelist `{RAYCAST}`. -/
theorem raycast_handles_registration_invariant_witness :
    ∃ s' h m obj, raycastProcessOne ⟨100, 101⟩
        (fun x => if x = (⟨0, 0⟩ : Entity)
          then some (Transform.fromPosition 0 0 0) else none)
        ⟨CollisionWorldM.emptyWorld,
          fun x => if x = (⟨0, 0⟩ : Entity)
            then some (Collider.new (Hitbox.withShape (.cuboid ⟨1, 1, 3⟩))
              Collider.SHIP [Collider.ASTEROID]) else none,
          ⟨0, fun _ => none⟩⟩ ⟨0, 0⟩ = some s' ∧
      s'.colliders ⟨0, 0⟩ = some ⟨Hitbox.withShape (.cuboid ⟨1, 1, 3⟩),
        Collider.SHIP, [Collider.ASTEROID], some h, some m⟩ ∧
      s'.world.get h = some obj ∧
      obj.groups.membership = [Collider.SHIP] ∧
      obj.groups.whitelist = [Collider.RAYCAST] ∧
      obj.entity = (⟨0, 0⟩ : Entity) ∧
      obj.position = toNalgebraPos (Transform.fromPosition 0 0 0)
        (Hitbox.withShape (ColliderShape.cuboid ⟨1, 1, 3⟩)).offset ∧
      obj.shape = (Hitbox.withShape (ColliderShape.cuboid ⟨1, 1, 3⟩)).asShapeHandle := by
  have hwf : RaycastWF ⟨CollisionWorldM.emptyWorld,
      fun x => if x = (⟨0, 0⟩ : Entity)
        then some (Collider.new (Hitbox.withShape (.cuboid ⟨1, 1, 3⟩))
          Collider.SHIP [Collider.ASTEROID]) else none,
      ⟨0, fun _ => none⟩⟩ := by
    constructor
    · intro p hp
      exact absurd hp (List.not_mem_nil p)
    · intro e c hcc
      dsimp only at hcc
      by_cases he : e = (⟨0, 0⟩ : Entity)
      · rw [if_pos he] at hcc
        injection hcc with hcc
        rw [← hcc]
        exact Or.inr ⟨rfl, rfl⟩
      · rw [if_neg he] at hcc
        exact Option.noConfusion hcc
  exact (raycast_handles_registration_invariant ⟨100, 101⟩ _ _ ⟨0, 0⟩).2.2.1
    (Transform.fromPosition 0 0 0)
    (Collider.new (Hitbox.withShape (.cuboid ⟨1, 1, 3⟩)) Collider.SHIP
      [Collider.ASTEROID])
    hwf (by simp) (by simp) rfl rfl

end SpaceAlpha
